import Mathlib

/-!
Verification of the custom-install 3DS title installer (`custominstall.py` and
its bundled `pyctr` library) against its natural-language specification.

Bytes are modelled as `Nat` values (each `< 256` where it matters) and byte
strings as `List Nat`.  Python strings are modelled as `List Char`.  External
cryptographic primitives (SHA-256, the AES block cipher, AES-CMAC) live in the
`Cryptodome`/`hashlib` libraries, outside this repository; they are passed as
function parameters, so every theorem about code that merely *uses* them holds
for an arbitrary primitive, and concrete witnesses instantiate them with
explicitly given stand-in functions.
-/

/-- Big-endian bytes-to-int, as `pyctr.util.readbe` / `int.from_bytes(b, 'big')`. -/
def readbe (b : List Nat) : Nat :=
  b.foldl (fun acc x => acc * 256 + x) 0

/-- Little-endian bytes-to-int, as `pyctr.util.readle` / `int.from_bytes(b, 'little')`. -/
def readle (b : List Nat) : Nat :=
  readbe b.reverse

/-- Little-endian fixed-width int-to-bytes, as Python `v.to_bytes(n, 'little')`
(faithful for `v < 256^n`, the range in which the Python call does not raise). -/
def leBytes (n v : Nat) : List Nat :=
  match n with
  | 0 => []
  | m + 1 => v % 256 :: leBytes m (v / 256)

/-- Big-endian fixed-width int-to-bytes, as Python `v.to_bytes(n, 'big')`
(faithful for `v < 256^n`). -/
def beBytes (n v : Nat) : List Nat :=
  (leBytes n v).reverse

/-- Python `str.lower` on a single character, for the ASCII range used by the
installer's paths. -/
def asciiLowerChar (c : Char) : Char :=
  if 65 ≤ c.toNat ∧ c.toNat ≤ 90 then Char.ofNat (c.toNat + 32) else c

/-- Python `str.lower` on a whole string (character-wise, ASCII range). -/
def asciiLower (s : List Char) : List Char :=
  s.map asciiLowerChar

/-- Python `str.encode('utf-16le')` for one character. -/
def utf16leChar (c : Char) : List Nat :=
  let n := c.toNat
  if n < 0x10000 then
    [n % 256, (n / 256) % 256]
  else
    let m := n - 0x10000
    let hi := 0xD800 + m / 0x400
    let lo := 0xDC00 + m % 0x400
    [hi % 256, hi / 256, lo % 256, lo / 256]

/-- Python `str.encode('utf-16le')` for a whole string. -/
def utf16le (s : List Char) : List Nat :=
  s.foldr (fun c acc => utf16leChar c ++ acc) []

/-- Floor of the base-2 logarithm of the rational `a / b` (for `a, b ≥ 1`),
used to find the binary64 exponent of a float quotient. -/
def log2Rat (a b : Nat) : Int :=
  let la := Nat.log2 a
  let lb := Nat.log2 b
  if b * 2 ^ la ≤ a * 2 ^ lb then (la : Int) - lb else (la : Int) - lb - 1

/-- Ceiling of the IEEE-754 binary64 double nearest to `a / b` (round half to
even): the significand is the 53-bit rounding of `a / b` scaled to
`[2^52, 2^53)`, and the ceiling of `significand * 2^(exponent - 52)` is taken
exactly, as Python's `math.ceil` does on a float.  The exponent range is
unbounded, so this is exact wherever the quotient is a normal double; Python
raises `ZeroDivisionError` for `b = 0` (modelled as 0) and `OverflowError`
for quotients at or above `2^1024`. -/
def ceilFloatDiv (a b : Nat) : Nat :=
  if a = 0 ∨ b = 0 then 0
  else
    let s := log2Rat a b
    let t := (52 - s).toNat
    let u := (s - 52).toNat
    let N := a * 2 ^ t
    let D := b * 2 ^ u
    let m0 := N / D
    let r := N % D
    let m := if 2 * r < D then m0
             else if D < 2 * r then m0 + 1
             else if m0 % 2 = 0 then m0 else m0 + 1
    (m * 2 ^ u + 2 ^ t - 1) / 2 ^ t

/-- Alignment rounding from `pyctr/util.py`:
`int(ceil(offset / alignment) * alignment)`, where `offset / alignment` is
Python float (binary64) division; `ceil` of a float and the following
integer multiplication are exact. -/
def roundup (offset alignment : Nat) : Nat :=
  ceilFloatDiv offset alignment * alignment

/-- `TITLE_ALIGN_SIZE` from `custominstall.py`. -/
def TITLE_ALIGN_SIZE : Nat := 0x8000

theorem log2_0x8000 : Nat.log2 0x8000 = 15 := by
  rw [Nat.log2_eq_log_two]
  show Nat.log 2 (2 ^ 15) = 15
  exact Nat.log_pow one_lt_two 15

/-- Below `2^53` the quotient `sz / 0x8000` is an exact double, so the
float-based `roundup` agrees with exact natural ceiling division. -/
theorem roundup_exact (sz : Nat) (hsz : sz < 2 ^ 53) :
    roundup sz TITLE_ALIGN_SIZE = ((sz + 0x7FFF) / 0x8000) * 0x8000 := by
  by_cases h0 : sz = 0
  · subst h0
    decide
  · have hla : Nat.log2 sz ≤ 52 := by
      have := (Nat.log2_lt h0).mpr hsz
      omega
    have hs : log2Rat sz 0x8000 ≤ 37 := by
      simp only [log2Rat, log2_0x8000]
      split <;> omega
    simp only [roundup, ceilFloatDiv, TITLE_ALIGN_SIZE]
    rw [if_neg (fun h => h.elim h0 (by norm_num))]
    have hu : (log2Rat sz 0x8000 - 52).toNat = 0 := by omega
    rw [hu]
    simp only [pow_zero, mul_one]
    have ht : 15 ≤ (52 - log2Rat sz 0x8000).toNat := by omega
    set t := (52 - log2Rat sz 0x8000).toNat with hdef
    have hsplit : 2 ^ t = 2 ^ (t - 15) * 2 ^ 15 := by
      rw [← pow_add]
      congr 1
      omega
    have hdvd : (0x8000 : Nat) ∣ sz * 2 ^ t := by
      refine ⟨sz * 2 ^ (t - 15), ?_⟩
      rw [hsplit, show ((0x8000 : Nat) = 2 ^ 15) from rfl]
      ring
    have hr : sz * 2 ^ t % 0x8000 = 0 := Nat.mod_eq_zero_of_dvd hdvd
    rw [hr]
    rw [if_pos (by norm_num)]
    have hm0 : sz * 2 ^ t / 0x8000 = sz * 2 ^ (t - 15) := by
      rw [hsplit, show ((0x8000 : Nat) = 2 ^ 15) from rfl, ← mul_assoc,
        Nat.mul_div_cancel _ (by positivity)]
    rw [hm0]
    congr 1
    set k := 2 ^ (t - 15) with hk
    have hkpos : 0 < k := by positivity
    have h2t : 2 ^ t = k * 0x8000 := hsplit
    rw [h2t]
    have hnum : sz * k + k * 0x8000 - 1 = k * (sz + 0x7FFF) + (k - 1) := by
      rw [Nat.mul_add, Nat.mul_comm k sz]
      omega
    rw [hnum, ← Nat.div_div_eq_div_mul, Nat.mul_add_div hkpos,
      Nat.div_eq_of_lt (show k - 1 < k from by omega), Nat.add_zero]

/-- Pointwise facts about `roundup` at the title alignment size, on the range
where the float division is exact. -/
theorem roundup_align_ge (x : Nat) (hx : x < 2 ^ 53) :
    x ≤ roundup x TITLE_ALIGN_SIZE ∧ (roundup x TITLE_ALIGN_SIZE = x ↔ x % 0x8000 = 0) := by
  rw [roundup_exact x hx]
  omega

/-- At `2^60 + 1` the float quotient rounds down to `2^45` exactly: the true
quotient is `2^45 + 2^-15`, and the nearest double is `2^45`, matching
Python. -/
theorem ceilFloatDiv_pow60 : ceilFloatDiv (2 ^ 60 + 1) 0x8000 = 2 ^ 45 := by
  have hla : Nat.log2 (2 ^ 60 + 1) = 60 := by
    rw [Nat.log2_eq_log_two]
    exact Nat.log_eq_of_pow_le_of_lt_pow (by norm_num) (by norm_num)
  have hs : log2Rat (2 ^ 60 + 1) 0x8000 = 45 := by
    simp only [log2Rat, hla, log2_0x8000]
    rw [if_pos (by norm_num)]
    decide
  simp only [ceilFloatDiv, hs]
  rw [if_neg (by norm_num)]
  rw [show ((52 : Int) - 45).toNat = 7 from by decide,
    show ((45 : Int) - 52).toNat = 0 from by decide]
  decide

theorem roundup_pow60 : roundup (2 ^ 60 + 1) TITLE_ALIGN_SIZE = 2 ^ 60 := by
  rw [roundup, TITLE_ALIGN_SIZE, ceilFloatDiv_pow60]
  decide

/-- C8 counterexample: for the one-element size list `[2^60 + 1]` the summed
rounded sizes are strictly SMALLER than the raw sum — the float division in
`roundup` rounds `(2^60 + 1) / 0x8000` down to `2^45`, so
`roundup(2^60 + 1, 0x8000) = 2^60 < 2^60 + 1` (as in Python), refuting the
claim's unrestricted inequality. -/
theorem claim_C8_counterexample :
    ¬ (([2 ^ 60 + 1] : List Nat).sum ≤
        (([2 ^ 60 + 1] : List Nat).map (fun sz => roundup sz TITLE_ALIGN_SIZE)).sum) ∧
    roundup (2 ^ 60 + 1) TITLE_ALIGN_SIZE = 2 ^ 60 := by
  constructor
  · simp only [List.map_cons, List.map_nil, List.sum_cons, List.sum_nil, roundup_pow60]
    norm_num
  · exact roundup_pow60

/-- C8 amended: for size lists whose entries are below `2^53` (where binary64
division by 0x8000 is exact — far above any real 3DS title size), the summed
rounded sizes dominate the raw sizes, with equality exactly when every size
is already 0x8000-aligned. -/
theorem claim_C8_amended (sizes : List Nat) (hb : ∀ sz ∈ sizes, sz < 2 ^ 53) :
    sizes.sum ≤ (sizes.map (fun sz => roundup sz TITLE_ALIGN_SIZE)).sum ∧
      ((sizes.map (fun sz => roundup sz TITLE_ALIGN_SIZE)).sum = sizes.sum ↔
        ∀ sz ∈ sizes, sz % 0x8000 = 0) := by
  induction sizes with
  | nil => simp
  | cons h t ih =>
    obtain ⟨ih₁, ih₂⟩ := ih (fun sz hsz => hb sz (List.mem_cons_of_mem _ hsz))
    obtain ⟨h₁, h₂⟩ := roundup_align_ge h (hb h (List.mem_cons_self _ _))
    constructor
    · simpa using Nat.add_le_add h₁ ih₁
    · simp only [List.map_cons, List.sum_cons, List.mem_cons]
      constructor
      · intro heq
        have hru : roundup h TITLE_ALIGN_SIZE = h ∧
            (t.map (fun sz => roundup sz TITLE_ALIGN_SIZE)).sum = t.sum := by
          omega
        intro sz hsz
        rcases hsz with rfl | hsz
        · exact h₂.mp hru.1
        · exact (ih₂.mp hru.2) sz hsz
      · intro hall
        have hh : roundup h TITLE_ALIGN_SIZE = h := h₂.mpr (hall h (Or.inl rfl))
        have ht : (t.map (fun sz => roundup sz TITLE_ALIGN_SIZE)).sum = t.sum :=
          ih₂.mpr (fun sz hsz => hall sz (Or.inr hsz))
        omega

/-- Witness for C8's amended statement at a concrete list with one aligned
and one unaligned size. -/
theorem claim_C8_witness :
    (∀ sz ∈ ([0x8000, 5] : List Nat), sz < 2 ^ 53) ∧
    (([0x8000, 5] : List Nat).sum ≤
        (([0x8000, 5] : List Nat).map (fun sz => roundup sz TITLE_ALIGN_SIZE)).sum ∧
      ((([0x8000, 5] : List Nat).map (fun sz => roundup sz TITLE_ALIGN_SIZE)).sum =
          ([0x8000, 5] : List Nat).sum ↔
        ∀ sz ∈ ([0x8000, 5] : List Nat), sz % 0x8000 = 0)) :=
  ⟨by decide, claim_C8_amended [0x8000, 5] (by decide)⟩

/-- Path normalization from `pyctr/type/exefs.py` `_normalize_path`: strip one
leading `'/'`, then, if the lowercased path ends with `'.bin'`, keep `p[:4]`
(the first four characters). -/
def normalizePath (p : List Char) : List Char :=
  let p1 := match p with
    | '/' :: rest => rest
    | _ => p
  if (".bin".data).isSuffixOf (asciiLower p1) then p1.take 4 else p1

/-- C9 evidence: for the ExeFS entry name `banner`, opening `banner.bin` (or
`/banner.bin`) normalizes to the first four characters `bann`, not to the entry
name `banner`; the `.bin` suffix is not what gets removed. -/
theorem claim_C9_normalize_truncates_banner :
    normalizePath "banner.bin".data = "bann".data ∧
      normalizePath "/banner.bin".data = "bann".data ∧
      normalizePath "BANNER.BIN".data = "BANN".data ∧
      "bann".data ≠ "banner".data := by
  refine ⟨by decide, by decide, by decide, by decide⟩

/-- Path-to-IV from `pyctr/crypto.py` `CryptoEngine.sd_path_to_iv`, with the
SHA-256 digest function passed as a parameter.  The source lowercases the path,
rewrites paths that start with `'/backup'` (no trailing slash) and are longer
than 28 characters, then XORs the two big-endian halves of the SHA-256 digest
of the UTF-16LE path plus two NUL bytes. -/
def sdPathToIv (sha : List Nat → List Nat) (path : List Char) : Nat :=
  let p := asciiLower path
  let p2 :=
    if ("/backup".data).isPrefixOf p ∧ p.length > 28 then
      "/title/".data ++ ((p.drop 12).take 8) ++ "/".data ++ ((p.drop 20).take 8)
        ++ "/data".data ++ p.drop 28
    else p
  let pathHash := sha (utf16le p2 ++ [0, 0])
  let hashP1 := readbe (pathHash.take 16)
  let hashP2 := readbe ((pathHash.drop 16).take 16)
  hashP1 ^^^ hashP2

/-- The rewritten path described by claim C1, parameterized by the prefix that
triggers the `/backup` remapping. -/
def claimBackupRewrite (pref : List Char) (p : List Char) : List Char :=
  if pref.isPrefixOf p ∧ p.length > 28 then
    "/title/".data ++ ((p.drop 12).take 8) ++ "/".data ++ ((p.drop 20).take 8)
      ++ "/data".data ++ p.drop 28
  else p

/-- Claim C1 as stated: the lowercased path is rewritten exactly when it starts
with `'/backup/'` (with the trailing slash) and is longer than 28 characters. -/
def claimSdPathToIv (sha : List Nat → List Nat) (path : List Char) : Nat :=
  let p := claimBackupRewrite "/backup/".data (asciiLower path)
  readbe ((sha (utf16le p ++ [0, 0])).take 16) ^^^
    readbe (((sha (utf16le p ++ [0, 0])).drop 16).take 16)

/-- Claim C1 amended: the trigger is the prefix `'/backup'`, without requiring
the trailing slash. -/
def amendedSdPathToIv (sha : List Nat → List Nat) (path : List Char) : Nat :=
  let p := claimBackupRewrite "/backup".data (asciiLower path)
  readbe ((sha (utf16le p ++ [0, 0])).take 16) ^^^
    readbe (((sha (utf16le p ++ [0, 0])).drop 16).take 16)

/-- Stand-in digest used by concrete counterexamples and witnesses: the first
32 bytes of the message, zero-padded to 32 bytes. -/
def dummySha (b : List Nat) : List Nat :=
  b.take 32 ++ List.replicate (32 - b.length) 0

/-- C1 counterexample: a lowercase path that starts with `'/backup'` but not
with `'/backup/'` and is longer than 28 characters is remapped by the code but
not by the claim, so the computed IVs differ (exhibited at a concrete digest
function). -/
theorem claim_C1_counterexample :
    sdPathToIv dummySha "/backupa0123456789abcdef01234".data ≠
      claimSdPathToIv dummySha "/backupa0123456789abcdef01234".data := by
  decide

/-- C1 amended: for every digest function and every path, `sd_path_to_iv`
computes the claim's XOR-of-digest-halves formula over the lowercased path,
remapped to `/title/<upper8>/<lower8>/data<rest>` exactly when the lowercased
path starts with `'/backup'` (no trailing slash required) and is longer than
28 characters. -/
theorem claim_C1_amended (sha : List Nat → List Nat) (path : List Char) :
    sdPathToIv sha path = amendedSdPathToIv sha path := by
  rfl

/-- Content type flags from `pyctr/type/tmd.py` `ContentTypeFlags`. -/
structure ContentTypeFlags where
  encrypted : Bool
  disc : Bool
  cfm : Bool
  optional : Bool
  shared : Bool
deriving DecidableEq

/-- `ContentTypeFlags.from_int`. -/
def ContentTypeFlags.fromInt (flags : Nat) : ContentTypeFlags :=
  ⟨flags &&& 1 ≠ 0, flags &&& 2 ≠ 0, flags &&& 4 ≠ 0, flags &&& 0x4000 ≠ 0, flags &&& 0x8000 ≠ 0⟩

/-- `ContentTypeFlags.__index__`. -/
def ContentTypeFlags.toInt (f : ContentTypeFlags) : Nat :=
  (cond f.encrypted 1 0) |||
    ((cond f.disc 1 0) <<< 1) ||| ((cond f.cfm 1 0) <<< 2) |||
    ((cond f.optional 1 0) <<< 14) ||| ((cond f.shared 1 0) <<< 15)

/-- Content chunk record from `pyctr/type/tmd.py` `ContentChunkRecord`.  The
source stores the content ID as an 8-char hex string; it is modelled as the
four ID bytes themselves (`bytes.fromhex` of that string). -/
structure ContentChunkRecord where
  id : List Nat
  cindex : Nat
  type : ContentTypeFlags
  size : Nat
  hash : List Nat
deriving DecidableEq

/-- Bit `7 - (i % 8)` of byte `i / 8` of the CIA archive-header content-index
bitmap, exactly the bit that `CIAReader.__init__` adds to `active_contents`
for content `i`. -/
def ciaActiveBit (contentIndex : List Nat) (i : Nat) : Bool :=
  match contentIndex.get? (i / 8) with
  | some b => (b >>> (7 - i % 8)) &&& 1 = 1
  | none => false

/-- The `active_contents` set built from the bitmap bytes by
`CIAReader.__init__` (`pyctr/types/cia.py` lines 100-107). -/
def ciaActiveContents (contentIndex : List Nat) : Finset Nat :=
  (Finset.range (8 * contentIndex.length)).filter (fun i => ciaActiveBit contentIndex i = true)

/-- The `content_info` list: TMD chunk records whose index is marked active in
the bitmap, in TMD order (`pyctr/types/cia.py` lines 150-153). -/
def ciaContentInfo (contentIndex : List Nat) (chunks : List ContentChunkRecord) :
    List ContentChunkRecord :=
  chunks.filter (fun r => ciaActiveBit contentIndex r.cindex)

/-- The `active_contents_tmd` set accumulated in the same loop. -/
def ciaActiveContentsTmd (contentIndex : List Nat) (chunks : List ContentChunkRecord) :
    Finset Nat :=
  chunks.foldl
    (fun s r => if ciaActiveBit contentIndex r.cindex then insert r.cindex s else s) ∅

/-- The `InvalidCIAError('Missing active contents in the TMD')` condition:
`active_contents ^ active_contents_tmd` is non-empty
(`pyctr/types/cia.py` lines 155-158). -/
def ciaMissingActiveCheck (contentIndex : List Nat) (chunks : List ContentChunkRecord) : Bool :=
  ((ciaActiveContents contentIndex \ ciaActiveContentsTmd contentIndex chunks) ∪
    (ciaActiveContentsTmd contentIndex chunks \ ciaActiveContents contentIndex)) ≠ ∅

/-- C5 counterexample: a CIA whose bitmap marks no content active, over a TMD
with one chunk record at index 0, passes the check (no `InvalidCIAError`) even
though the bitmap set `∅` differs from the TMD chunk index set `{0}`: the
cross-check only fires in one direction. -/
theorem claim_C5_counterexample :
    ciaMissingActiveCheck [] [⟨[0, 0, 0, 0], 0, ⟨true, false, false, false, false⟩, 1, []⟩]
        = false ∧
      ciaActiveContents [] ≠
        (([⟨[0, 0, 0, 0], 0, ⟨true, false, false, false, false⟩, 1,
          ([] : List Nat)⟩] : List ContentChunkRecord).map ContentChunkRecord.cindex).toFinset := by
  constructor
  · rfl
  · intro h
    have h0 : (0 : Nat) ∈ ciaActiveContents [] := by
      rw [h]; simp
    simp [ciaActiveContents] at h0

/-- Membership in the accumulated `active_contents_tmd` set. -/
theorem mem_ciaActiveContentsTmd (contentIndex : List Nat) (chunks : List ContentChunkRecord)
    (i : Nat) :
    i ∈ ciaActiveContentsTmd contentIndex chunks ↔
      (∃ r ∈ chunks, r.cindex = i) ∧ ciaActiveBit contentIndex i = true := by
  unfold ciaActiveContentsTmd
  suffices h : ∀ (s : Finset Nat),
      i ∈ chunks.foldl
          (fun s r => if ciaActiveBit contentIndex r.cindex then insert r.cindex s else s) s ↔
        i ∈ s ∨ ((∃ r ∈ chunks, r.cindex = i) ∧ ciaActiveBit contentIndex i = true) by
    simpa using h ∅
  intro s
  induction chunks generalizing s with
  | nil => simp
  | cons c t ih =>
    simp only [List.foldl_cons, ih, List.mem_cons]
    constructor
    · rintro (hmem | hrest)
      · by_cases hc : ciaActiveBit contentIndex c.cindex = true
        · rw [if_pos hc] at hmem
          rcases Finset.mem_insert.mp hmem with rfl | hs
          · exact Or.inr ⟨⟨c, Or.inl rfl, rfl⟩, hc⟩
          · exact Or.inl hs
        · rw [if_neg hc] at hmem
          exact Or.inl hmem
      · rcases hrest with ⟨⟨r, hr, hri⟩, hbit⟩
        exact Or.inr ⟨⟨r, Or.inr hr, hri⟩, hbit⟩
    · rintro (hs | ⟨⟨r, hr, hri⟩, hbit⟩)
      · left
        split
        · exact Finset.mem_insert_of_mem hs
        · exact hs
      · rcases hr with rfl | hr
        · left
          rw [hri, if_pos (hri ▸ hbit)]
          exact Finset.mem_insert_self i _
        · exact Or.inr ⟨⟨r, hr, hri⟩, hbit⟩

/-- C5 amended: opening fails with `InvalidCIAError` exactly when some content
index marked active in the bitmap does not appear among the TMD chunk records;
TMD chunk indices absent from the bitmap are silently dropped from
`content_info` and cause no error. -/
theorem claim_C5_amended (contentIndex : List Nat) (chunks : List ContentChunkRecord) :
    ciaMissingActiveCheck contentIndex chunks = true ↔
      ∃ i ∈ ciaActiveContents contentIndex, ∀ r ∈ chunks, r.cindex ≠ i := by
  unfold ciaMissingActiveCheck
  rw [decide_eq_true_iff]
  constructor
  · intro hne
    obtain ⟨i, hi⟩ := Finset.nonempty_iff_ne_empty.mpr hne
    rcases Finset.mem_union.mp hi with hd | hd
    · obtain ⟨hact, htmd⟩ := Finset.mem_sdiff.mp hd
      refine ⟨i, hact, fun r hr hri => htmd ?_⟩
      exact (mem_ciaActiveContentsTmd _ _ _).mpr ⟨⟨r, hr, hri⟩, (Finset.mem_filter.mp hact).2⟩
    · obtain ⟨htmd, hact⟩ := Finset.mem_sdiff.mp hd
      obtain ⟨⟨r, hr, hri⟩, hbit⟩ := (mem_ciaActiveContentsTmd _ _ _).mp htmd
      exfalso
      refine hact (Finset.mem_filter.mpr ⟨Finset.mem_range.mpr ?_, hbit⟩)
      have : i / 8 < contentIndex.length := by
        by_contra hge
        have hnone : contentIndex[i / 8]? = none := List.getElem?_eq_none (by omega)
        simp [ciaActiveBit, hnone] at hbit
      omega
  · rintro ⟨i, hact, hnone⟩
    refine Finset.nonempty_iff_ne_empty.mp ⟨i, Finset.mem_union.mpr (Or.inl ?_)⟩
    refine Finset.mem_sdiff.mpr ⟨hact, fun htmd => ?_⟩
    obtain ⟨⟨r, hr, hri⟩, _⟩ := (mem_ciaActiveContentsTmd _ _ _).mp htmd
    exact hnone r hr hri

/-- ASCII bytes of a literal string. -/
def asciiBytes (s : String) : List Nat :=
  s.data.map Char.toNat

/-- `CIFINISH_VERSION` from `custominstall.py`. -/
def CIFINISH_VERSION : Nat := 3

/-- A parsed `cifinish.bin` database: Title ID keys with optional 16-byte
seeds, modelled as an association list in Python-dict insertion order. -/
abbrev CifinishDict := List (Nat × Option (List Nat))

/-- Python dict assignment `data[k] = v`: replace in place if present,
else append. -/
def dictInsert (k : Nat) (v : Option (List Nat)) : CifinishDict → CifinishDict
  | [] => [(k, v)]
  | (k', v') :: t => if k' = k then (k, v) :: t else (k', v') :: dictInsert k v t

/-- `sorted(data.items())`: entries ordered by integer Title ID. -/
def sortByTid (d : CifinishDict) : CifinishDict :=
  d.insertionSort (fun a b => a.1 ≤ b.1)

/-- One `finalize_entry_data` block written by `save_cifinish`: magic
`TITLE\0`, a truthiness byte for the seed, a padding byte, the Title ID as
u64 LE, then the seed bytes or 16 zeros. -/
def cifinishEntryBytes (e : Nat × Option (List Nat)) : List Nat :=
  asciiBytes "TITLE" ++ [0] ++
    [match e.2 with
      | some s => if s.isEmpty then 0 else 1
      | none => 0] ++
    [0] ++ leBytes 8 e.1 ++
    (match e.2 with
      | some s => if s.isEmpty then List.replicate 0x10 0 else s
      | none => List.replicate 0x10 0)

/-- `save_cifinish` from `custominstall.py`: header magic `CIFINISH`, version
u32 LE, entry count u32 LE, then the entries sorted by integer Title ID. -/
def saveCifinish (d : CifinishDict) : List Nat :=
  asciiBytes "CIFINISH" ++ leBytes 4 CIFINISH_VERSION ++ leBytes 4 d.length ++
    ((sortByTid d).map cifinishEntryBytes).flatten

/-- The entry-reading loop of `load_cifinish`, for all three readable
versions.  Each iteration consumes one fixed-size entry, validates its length,
and inserts into the dict when the `TITLE\0` magic matches. -/
def goCifinish (version count : Nat) (rest : List Nat) (acc : CifinishDict) :
    Except String CifinishDict :=
  match count with
  | 0 => .ok acc
  | n + 1 =>
    if version = 1 then
      let raw := rest.take 0x30
      if raw.length ≠ 0x30 then .error "title entry is not 0x30" else
      let titleMagic := (raw.drop 0xA).take 6
      let titleId := readle (raw.take 8)
      let hasSeed := raw.getD 0x9 0
      let seed := (raw.drop 0x20).take 0x10
      goCifinish version n (rest.drop 0x30)
        (if titleMagic = asciiBytes "TITLE" ++ [0] then
          dictInsert titleId (if hasSeed ≠ 0 then some seed else none) acc
        else acc)
    else if version = 2 then
      let raw := rest.take 0x20
      if raw.length ≠ 0x20 then .error "title entry is not 0x20" else
      let titleMagic := raw.take 6
      let titleId := readle ((raw.drop 0x6).take 8)
      let hasSeed := raw.getD 0xE 0
      let seed := (raw.drop 0x10).take 0x10
      goCifinish version n (rest.drop 0x20)
        (if titleMagic = asciiBytes "TITLE" ++ [0] then
          dictInsert titleId (if hasSeed ≠ 0 then some seed else none) acc
        else acc)
    else if version = 3 then
      let raw := rest.take 0x20
      if raw.length ≠ 0x20 then .error "title entry is not 0x20" else
      let titleMagic := raw.take 6
      let titleId := readle ((raw.drop 0x8).take 8)
      let hasSeed := raw.getD 0x6 0
      let seed := (raw.drop 0x10).take 0x10
      goCifinish version n (rest.drop 0x20)
        (if titleMagic = asciiBytes "TITLE" ++ [0] then
          dictInsert titleId (if hasSeed ≠ 0 then some seed else none) acc
        else acc)
    else .error "unknown version"

/-- `load_cifinish` from `custominstall.py` on in-memory file contents:
check the `CIFINISH` magic, read version and count, then parse entries. -/
def loadCifinish (file : List Nat) : Except String CifinishDict :=
  let header := file.take 0x10
  if header.take 8 = asciiBytes "CIFINISH" then
    goCifinish (readle ((header.drop 0x8).take 4)) (readle ((header.drop 0xC).take 4))
      (file.drop 0x10) []
  else .error "CIFINISH magic not found"

theorem leBytes_length (n v : Nat) : (leBytes n v).length = n := by
  induction n generalizing v with
  | zero => rfl
  | succ m ih => simp [leBytes, ih]

theorem readbe_append_singleton (xs : List Nat) (b : Nat) :
    readbe (xs ++ [b]) = readbe xs * 256 + b := by
  simp [readbe, List.foldl_append]

theorem readle_leBytes (n v : Nat) : readle (leBytes n v) = v % 256 ^ n := by
  induction n generalizing v with
  | zero => simp [readle, readbe, leBytes, Nat.mod_one]
  | succ m ih =>
    have h : readle (leBytes (m + 1) v) = readle (leBytes m (v / 256)) * 256 + v % 256 := by
      simp only [leBytes, readle, List.reverse_cons]
      exact readbe_append_singleton _ _
    rw [h, ih, pow_succ, mul_comm (256 ^ m) 256, Nat.mod_mul]
    ring

theorem dictInsert_fresh (k : Nat) (v : Option (List Nat)) (acc : CifinishDict)
    (h : ∀ q ∈ acc, q.1 ≠ k) : dictInsert k v acc = acc ++ [(k, v)] := by
  induction acc with
  | nil => rfl
  | cons q t ih =>
    have hq : q.1 ≠ k := h q (List.mem_cons_self _ _)
    simp only [dictInsert, if_neg hq, List.cons_append, List.cons.injEq, true_and]
    exact ih (fun p hp => h p (List.mem_cons_of_mem _ hp))

theorem cifinishEntryBytes_decomp (tid : Nat) (seedo : Option (List Nat))
    (hseed : ∀ s, seedo = some s → s.length = 16) :
    ∃ f sb, cifinishEntryBytes (tid, seedo) = [84, 73, 84, 76, 69, 0, f, 0] ++ leBytes 8 tid ++ sb
      ∧ sb.length = 16
      ∧ (if f = 0 then none else some sb) = seedo := by
  match seedo with
  | none => exact ⟨0, List.replicate 0x10 0, by simp [cifinishEntryBytes, asciiBytes], by simp, by simp⟩
  | some s =>
    have hlen : s.length = 16 := hseed s rfl
    have hne : s.isEmpty = false := by
      cases s with
      | nil => simp at hlen
      | cons a t => rfl
    refine ⟨1, s, ?_, hlen, by simp⟩
    simp [cifinishEntryBytes, asciiBytes, hne]

theorem goCifinish_entries (es : CifinishDict) (acc : CifinishDict)
    (hval : ∀ p ∈ es, p.1 < 2 ^ 64 ∧ ∀ s, p.2 = some s → s.length = 16)
    (hfresh : ∀ p ∈ es, ∀ q ∈ acc, q.1 ≠ p.1)
    (hnodup : (es.map Prod.fst).Nodup) :
    goCifinish 3 es.length ((es.map cifinishEntryBytes).flatten) acc = .ok (acc ++ es) := by
  induction es generalizing acc with
  | nil => simp [goCifinish]
  | cons e t ih =>
    obtain ⟨htid, hseed⟩ := hval e (List.mem_cons_self _ _)
    obtain ⟨f, sb, hE, hsblen, hfseed⟩ := cifinishEntryBytes_decomp e.1 e.2 hseed
    have hEfull : cifinishEntryBytes e = [84, 73, 84, 76, 69, 0, f, 0] ++ leBytes 8 e.1 ++ sb := by
      rw [← hE]
    have hElen : (cifinishEntryBytes e).length = 0x20 := by
      simp [hEfull, leBytes_length, hsblen]
    set E := cifinishEntryBytes e with hEdef
    set R := ((t.map cifinishEntryBytes).flatten) with hRdef
    have hflat : (((e :: t).map cifinishEntryBytes).flatten) = E ++ R := by
      simp [hEdef, hRdef]
    have htake : (E ++ R).take 0x20 = E := List.take_left' hElen
    have hdrop : (E ++ R).drop 0x20 = R := List.drop_left' hElen
    have hmagic : E.take 6 = [84, 73, 84, 76, 69, 0] := by
      rw [hEfull, List.append_assoc]
      rw [List.take_append_of_le_length (by simp)]
      rfl
    have hgetf : E.getD 0x6 0 = f := by
      rw [hEfull, List.append_assoc]
      rw [List.getD_append _ _ _ _ (by simp)]
      rfl
    have htid8 : (E.drop 0x8).take 8 = leBytes 8 e.1 := by
      rw [hEfull, List.append_assoc]
      rw [List.drop_left' (show ([84, 73, 84, 76, 69, 0, f, 0] : List Nat).length = 0x8 from rfl)]
      exact List.take_left' (leBytes_length _ _)
    have hseed16 : (E.drop 0x10).take 0x10 = sb := by
      rw [hEfull]
      rw [List.drop_left' (show (([84, 73, 84, 76, 69, 0, f, 0] ++ leBytes 8 e.1) : List Nat).length = 0x10
        from by simp [leBytes_length])]
      rw [← hsblen]
      exact List.take_length sb
    have hid : readle ((E.drop 0x8).take 8) = e.1 := by
      rw [htid8, readle_leBytes]
      exact Nat.mod_eq_of_lt htid
    rw [List.length_cons, hflat]
    simp only [goCifinish]
    have hT : asciiBytes "TITLE" ++ [0] = [84, 73, 84, 76, 69, 0] := by decide
    rw [htake, hdrop, hT]
    simp only [hElen, hmagic, hgetf, hid, hseed16]
    norm_num
    rw [hfseed]
    have hins : dictInsert e.1 e.2 acc = acc ++ [(e.1, e.2)] :=
      dictInsert_fresh _ _ _ (fun q hq => hfresh e (List.mem_cons_self _ _) q hq)
    rw [hins]
    have ht := ih (acc ++ [(e.1, e.2)])
      (fun p hp => hval p (List.mem_cons_of_mem _ hp))
      (fun p hp q hq => by
        rcases List.mem_append.mp hq with hq | hq
        · exact hfresh p (List.mem_cons_of_mem _ hp) q hq
        · rcases List.mem_singleton.mp hq with rfl
          simp only [ne_eq]
          intro hkey
          have : e.1 ∈ t.map Prod.fst := hkey ▸ List.mem_map_of_mem Prod.fst hp
          exact (List.nodup_cons.mp (by simpa using hnodup)).1 this)
      (List.nodup_cons.mp (by simpa using hnodup)).2
    rw [ht]
    simp

instance : IsTotal (Nat × Option (List Nat)) (fun a b => a.1 ≤ b.1) :=
  ⟨fun a b => Nat.le_total a.1 b.1⟩

instance : IsTrans (Nat × Option (List Nat)) (fun a b => a.1 ≤ b.1) :=
  ⟨fun _ _ _ h h' => Nat.le_trans h h'⟩

theorem length_flatten_of_const {α : Type} (f : α → List Nat) (k : Nat) (l : List α)
    (h : ∀ x ∈ l, (f x).length = k) : ((l.map f).flatten).length = k * l.length := by
  induction l with
  | nil => simp
  | cons a t ih =>
    simp only [List.map_cons, List.flatten_cons, List.length_append, List.length_cons]
    rw [h a (List.mem_cons_self _ _), ih (fun x hx => h x (List.mem_cons_of_mem _ hx)),
      Nat.mul_succ]
    exact Nat.add_comm _ _

/-- C7: saving any well-formed seed dictionary and loading the result yields
the same dictionary (as the list of its entries sorted by integer Title ID,
a permutation of the input), and the written file is the version-3 format:
`CIFINISH` magic, version 3, entry count, then one 0x20-byte entry per title
in ascending Title ID order. -/
theorem claim_C7_cifinish_roundtrip (d : CifinishDict)
    (hnodup : (d.map Prod.fst).Nodup)
    (hcount : d.length < 2 ^ 32)
    (hval : ∀ p ∈ d, p.1 < 2 ^ 64 ∧ ∀ s, p.2 = some s → s.length = 16) :
    loadCifinish (saveCifinish d) = .ok (sortByTid d) ∧
      (sortByTid d).Perm d ∧
      (sortByTid d).Pairwise (fun a b => a.1 ≤ b.1) ∧
      (saveCifinish d).length = 0x10 + 0x20 * d.length := by
  have hperm : (sortByTid d).Perm d := List.perm_insertionSort _ d
  have hvalS : ∀ p ∈ sortByTid d, p.1 < 2 ^ 64 ∧ ∀ s, p.2 = some s → s.length = 16 :=
    fun p hp => hval p (hperm.mem_iff.mp hp)
  have hlenS : (sortByTid d).length = d.length := hperm.length_eq
  have hentry : ∀ p ∈ sortByTid d, (cifinishEntryBytes p).length = 0x20 := by
    intro p hp
    obtain ⟨f, sb, hE, hsblen, _⟩ := cifinishEntryBytes_decomp p.1 p.2 (hvalS p hp).2
    have : cifinishEntryBytes p = [84, 73, 84, 76, 69, 0, f, 0] ++ leBytes 8 p.1 ++ sb := by
      rw [← hE]
    simp [this, leBytes_length, hsblen]
  have hBlen : (((sortByTid d).map cifinishEntryBytes).flatten).length = 0x20 * d.length := by
    rw [length_flatten_of_const _ _ _ hentry, hlenS]
  have hM8 : asciiBytes "CIFINISH" = [67, 73, 70, 73, 78, 73, 83, 72] := by decide
  have hsave : saveCifinish d =
      (asciiBytes "CIFINISH" ++ leBytes 4 3 ++ leBytes 4 d.length) ++
        ((sortByTid d).map cifinishEntryBytes).flatten := by
    simp [saveCifinish, CIFINISH_VERSION]
  have hHlen : (asciiBytes "CIFINISH" ++ leBytes 4 3 ++ leBytes 4 d.length).length = 0x10 := by
    simp [hM8, leBytes_length]
  refine ⟨?_, hperm, ?_, ?_⟩
  · rw [hsave]
    unfold loadCifinish
    rw [List.take_left' hHlen, List.drop_left' hHlen]
    have htake8 : (asciiBytes "CIFINISH" ++ leBytes 4 3 ++ leBytes 4 d.length).take 8 =
        asciiBytes "CIFINISH" := by
      rw [List.append_assoc, List.take_append_of_le_length (by simp [hM8]), hM8]
      rfl
    have hver : readle (((asciiBytes "CIFINISH" ++ leBytes 4 3 ++ leBytes 4 d.length).drop 8).take 4)
        = 3 := by
      rw [List.append_assoc, List.drop_left' (by simp [hM8] : (asciiBytes "CIFINISH").length = 8)]
      rw [List.take_append_of_le_length (by simp [leBytes_length])]
      rw [List.take_of_length_le (by simp [leBytes_length]), readle_leBytes]
      norm_num
    have hcnt : readle (((asciiBytes "CIFINISH" ++ leBytes 4 3 ++ leBytes 4 d.length).drop 0xC).take 4)
        = d.length := by
      rw [List.drop_left' (by simp [hM8, leBytes_length] :
        (asciiBytes "CIFINISH" ++ leBytes 4 3).length = 0xC)]
      rw [List.take_of_length_le (by simp [leBytes_length]), readle_leBytes]
      have : (256 : Nat) ^ 4 = 2 ^ 32 := by norm_num
      rw [this]
      exact Nat.mod_eq_of_lt hcount
    simp only [htake8, hver, hcnt, if_true]
    have := goCifinish_entries (sortByTid d) [] hvalS (by simp)
      ((hperm.map Prod.fst).nodup_iff.mpr hnodup)
    rw [hlenS] at this
    rw [this]
    simp
  · have := List.sorted_insertionSort (fun a b : Nat × Option (List Nat) => a.1 ≤ b.1) d
    exact this
  · rw [hsave]
    simp only [List.length_append, hHlen, hBlen]

/-- Witness for C7 at a concrete two-title dictionary. -/
theorem claim_C7_witness :
    loadCifinish (saveCifinish [(5, some (List.replicate 16 2)), (3, none)]) =
      .ok (sortByTid [(5, some (List.replicate 16 2)), (3, none)]) ∧
      sortByTid [(5, some (List.replicate 16 2)), (3, none)] =
        [(3, none), (5, some (List.replicate 16 2))] := by
  have h := claim_C7_cifinish_roundtrip [(5, some (List.replicate 16 2)), (3, none)]
    (by decide) (by decide)
    (by
      intro p hp
      rcases List.mem_cons.mp hp with rfl | hp
      · exact ⟨by decide, fun s hs => by cases hs; decide⟩
      · rcases List.mem_cons.mp hp with rfl | hp
        · exact ⟨by decide, fun s hs => by cases hs⟩
        · cases hp)
  exact ⟨h.1, by decide⟩

/-- Bit rotation from `pyctr/crypto.py` `rol`. -/
def rol (val rBits maxBits : Nat) : Nat :=
  ((val <<< (rBits % maxBits)) &&& (2 ^ maxBits - 1)) |||
    ((val &&& (2 ^ maxBits - 1)) >>> (maxBits - rBits % maxBits))

/-- The 3DS AES keyscrambler, `CryptoEngine.keygen_manual`, serialized
big-endian. -/
def keygen_manual (keyX keyY : Nat) : List Nat :=
  beBytes 0x10 (rol ((rol keyX 2 128 ^^^ keyY) + 0x1FF9E9AAC5FE0408024591DC5D52768A) 87 128)

/-- The DSi AES keyscrambler, `CryptoEngine.keygen_twl_manual`. -/
def keygen_twl_manual (keyX keyY : Nat) : List Nat :=
  beBytes 0x10 (rol ((keyX ^^^ keyY) + 0xFFFEFB4E295902582A680F5F1A4F3E79) 42 128)

/-- The six common KeyYs from `pyctr/crypto.py` `common_key_y`. -/
def common_key_y : List Nat :=
  [0xD07B337F9CA4385932A2E25723232EB9,
   0x0C767230F0998F1C46828202FAACBE4C,
   0xC475CB3AB8C788BB575E12A10907B8A4,
   0xE486EEE3D0C09C902F6686D4C06F649F,
   0xED31BA9C04B067506C4497A35B7804FC,
   0x5E66998AB4E8931606850FD7A16DD755]

/-- `DEV_COMMON_KEY_0` from `pyctr/crypto.py`. -/
def DEV_COMMON_KEY_0 : List Nat :=
  [0x55, 0xA3, 0xF8, 0x72, 0xBD, 0xC8, 0x0C, 0x55, 0x5A, 0x65, 0x43, 0x81, 0x13, 0x9E, 0x15, 0x3B]

/-- The keyslot store of `CryptoEngine`: per-slot optional KeyX and KeyY
(Python ints) and optional normal key (bytes), plus the `dev` flag. -/
structure CryptoEngine where
  dev : Nat
  key_x : Nat → Option Nat
  key_y : Nat → Option Nat
  key_normal : Nat → Option (List Nat)

/-- `CryptoEngine.keygen`: derive a normal key for a slot from KeyX and KeyY
(DSi scrambler below slot 4, 3DS scrambler otherwise); `none` models the
`KeyError` when either half is missing. -/
def CryptoEngine.keygen (e : CryptoEngine) (keyslot : Nat) : Option (List Nat) :=
  match e.key_x keyslot, e.key_y keyslot with
  | some x, some y =>
    some (if keyslot < 0x04 then keygen_twl_manual x y else keygen_manual x y)
  | _, _ => none

/-- `CryptoEngine.set_keyslot` for an integer key (`xy = true` selects KeyX):
store the key, then recompute the normal key, swallowing the `KeyError` when
the other half is absent. -/
def CryptoEngine.set_keyslot (e : CryptoEngine) (xy : Bool) (keyslot : Nat) (key : Nat) :
    CryptoEngine :=
  let e' :=
    if xy then { e with key_x := fun s => if s = keyslot then some key else e.key_x s }
    else { e with key_y := fun s => if s = keyslot then some key else e.key_y s }
  match e'.keygen keyslot with
  | some k => { e' with key_normal := fun s => if s = keyslot then some k else e'.key_normal s }
  | none => e'

/-- `CryptoEngine.set_normal_key`: store a normal key directly, bypassing the
scrambler. -/
def CryptoEngine.set_normal_key (e : CryptoEngine) (keyslot : Nat) (key : List Nat) :
    CryptoEngine :=
  { e with key_normal := fun s => if s = keyslot then some key else e.key_normal s }

/-- Byte-wise XOR (for CBC chaining and CTR keystreams). -/
def xorBytes (a b : List Nat) : List Nat :=
  List.zipWith (fun x y => x ^^^ y) a b

/-- AES-CBC decryption over an abstract block decryption function `D`:
each plaintext block is `D key c XOR prev`, chaining ciphertext blocks. -/
def cbcDecrypt (D : List Nat → List Nat → List Nat) (key : List Nat) :
    (iv data : List Nat) → List Nat
  | _, [] => []
  | iv, b :: rest =>
    xorBytes (D key ((b :: rest).take 16)) iv ++
      cbcDecrypt D key ((b :: rest).take 16) ((b :: rest).drop 16)
termination_by _ data => data.length
decreasing_by simp; omega

/-- Crypto-layer failures surfaced by `pyctr/crypto.py` (plus the Python
`IndexError` when a ticket's common-key index exceeds the 6-entry table). -/
inductive CryptoErr where
  | ticketLength : Nat → CryptoErr
  | keyslotMissing : Nat → CryptoErr
  | indexOutOfRange : CryptoErr
deriving DecidableEq

/-- `CryptoEngine.load_from_ticket` over an abstract AES block decryption `D`:
length check, titlekey/Title-ID/common-key-index extraction, common-key setup
(dev override or `set_keyslot('y', 0x3D, ...)`), then CBC-decrypt the titlekey
with IV `title_id || 8 zero bytes` and store it directly as the slot-0x40
normal key. -/
def CryptoEngine.load_from_ticket (D : List Nat → List Nat → List Nat) (e : CryptoEngine)
    (ticket : List Nat) : Except CryptoErr CryptoEngine :=
  let ticketLen := ticket.length
  if ticketLen < 0x2AC then .error (.ticketLength ticketLen)
  else
    let titlekeyEnc := (ticket.drop 0x1BF).take 0x10
    let titleId := (ticket.drop 0x1DC).take 8
    let commonKeyIndex := ticket.getD 0x1F1 0
    let e2res : Except CryptoErr CryptoEngine :=
      if e.dev ≠ 0 ∧ commonKeyIndex = 0 then
        .ok (e.set_normal_key 0x3D DEV_COMMON_KEY_0)
      else
        match common_key_y.get? commonKeyIndex with
        | some y => .ok (e.set_keyslot false 0x3D y)
        | none => .error .indexOutOfRange
    e2res.bind fun e2 =>
      match e2.key_normal 0x3D with
      | none => .error (.keyslotMissing 0x3D)
      | some key =>
        .ok (e2.set_normal_key 0x40 (cbcDecrypt D key (titleId ++ List.replicate 8 0) titlekeyEnc))

/-- The 128-bit big-endian counter block for counter value `c`
(`Cryptodome.Util.Counter.new(128, initial_value=...)` semantics). -/
def counterBytes (c : Nat) : List Nat :=
  beBytes 16 (c % 2 ^ 128)

/-- Byte `i` of the CTR keystream for base counter `ctr`, over an abstract AES
block encryption `E`: byte `i % 16` of the encrypted counter block `ctr + i / 16`. -/
def ksByte (E : List Nat → List Nat → List Nat) (key : List Nat) (ctr i : Nat) : Nat :=
  (E key (counterBytes (ctr + i / 16))).getD (i % 16) 0

/-- XOR a byte string with keystream bytes starting at stream position `skip`. -/
def xorKs (ks : Nat → Nat) (skip : Nat) : List Nat → List Nat
  | [] => []
  | b :: rest => (b ^^^ ks skip) :: xorKs ks (skip + 1) rest

/-- Per-16-byte-block reversal of `_TWLCryptoWrapper` (the DSi hardware
endianness quirk); a trailing partial block is reversed within itself. -/
def revBlocks (l : List Nat) : List Nat :=
  if l = [] then [] else (l.take 16).reverse ++ revBlocks (l.drop 16)
termination_by l.length
decreasing_by
  rename_i h
  have := List.length_pos.mpr h
  simp only [List.length_drop]
  omega

/-- One `CtrMode.encrypt`/`decrypt` call (they are identical) after the cipher
has already consumed `skip` dummy bytes, as `create_ctr_cipher` plus the
begin-padding trick of `CTRFileIO`: keyslots below 4 go through the
block-reversing wrapper, the rest XOR the keystream directly. -/
def ctrTransform (E : List Nat → List Nat → List Nat) (key : List Nat)
    (keyslot ctr skip : Nat) (data : List Nat) : List Nat :=
  if keyslot < 0x04 then revBlocks (xorKs (ksByte E key ctr) skip (revBlocks data))
  else xorKs (ksByte E key ctr) skip data

/-- State of a `CTRFileIO` object: the underlying file bytes and the current
position of the wrapped file handle. -/
structure CTRFileIO where
  file : List Nat
  pos : Nat
deriving DecidableEq

/-- `CTRFileIO.seek` with `whence = 0`. -/
def ctrIoSeek (s : CTRFileIO) (off : Nat) : CTRFileIO :=
  { s with pos := off }

/-- Overwrite `data` into `file` at `pos`, zero-filling any gap beyond the old
end of file and keeping bytes after the written region. -/
def writeAt (file : List Nat) (pos : Nat) (data : List Nat) : List Nat :=
  file.take pos ++ List.replicate (pos - file.length) 0 ++ data ++ file.drop (pos + data.length)

/-- `CTRFileIO.write`: encrypt `data` with the block-aligned counter
`counter + (offset >> 4)` after `offset % 16` dummy bytes, then write the
ciphertext at the current position. -/
def ctrIoWrite (E : List Nat → List Nat → List Nat) (eng : CryptoEngine)
    (keyslot ctrBase : Nat) (s : CTRFileIO) (data : List Nat) :
    Except CryptoErr (Nat × CTRFileIO) :=
  match eng.key_normal keyslot with
  | none => .error (.keyslotMissing keyslot)
  | some key =>
    let counter := ctrBase + s.pos / 16
    let enc := ctrTransform E key keyslot counter (s.pos % 16) data
    .ok (enc.length, { file := writeAt s.file s.pos enc, pos := s.pos + enc.length })

/-- `CTRFileIO.read`: read up to `size` bytes at the current position and
decrypt them with the same block-aligned counter and dummy-byte skip. -/
def ctrIoRead (E : List Nat → List Nat → List Nat) (eng : CryptoEngine)
    (keyslot ctrBase : Nat) (s : CTRFileIO) (size : Nat) :
    Except CryptoErr (List Nat × CTRFileIO) :=
  match eng.key_normal keyslot with
  | none => .error (.keyslotMissing keyslot)
  | some key =>
    let data := (s.file.drop s.pos).take size
    let counter := ctrBase + s.pos / 16
    .ok (ctrTransform E key keyslot counter (s.pos % 16) data,
      { s with pos := s.pos + data.length })

theorem xorKs_length (ks : Nat → Nat) (skip : Nat) (l : List Nat) :
    (xorKs ks skip l).length = l.length := by
  induction l generalizing skip with
  | nil => rfl
  | cons b rest ih => simp [xorKs, ih]

theorem xorKs_xorKs (ks : Nat → Nat) (skip : Nat) (l : List Nat) :
    xorKs ks skip (xorKs ks skip l) = l := by
  induction l generalizing skip with
  | nil => rfl
  | cons b rest ih => simp [xorKs, ih, Nat.xor_cancel_right]

theorem revBlocks_length (l : List Nat) : (revBlocks l).length = l.length := by
  induction l using revBlocks.induct with
  | case1 => rw [revBlocks]; simp
  | case2 l h ih =>
    rw [revBlocks, if_neg h]
    have := List.length_pos.mpr h
    simp only [List.length_append, List.length_reverse, List.length_take, List.length_drop] at *
    omega

theorem revBlocks_revBlocks (l : List Nat) : revBlocks (revBlocks l) = l := by
  induction l using revBlocks.induct with
  | case1 => rw [revBlocks]; simp [revBlocks]
  | case2 l h ih =>
    have hl : revBlocks l = (l.take 16).reverse ++ revBlocks (l.drop 16) := by
      rw [revBlocks, if_neg h]
    rw [hl]
    by_cases hlen : l.length ≤ 16
    · have hdrop : l.drop 16 = [] := List.drop_eq_nil_of_le hlen
      have htake : l.take 16 = l := List.take_of_length_le hlen
      rw [hdrop, htake]
      have hrev0 : revBlocks ([] : List Nat) = [] := by rw [revBlocks]; simp
      rw [hrev0, List.append_nil]
      have hne : l.reverse ≠ [] := by
        simpa using h
      rw [revBlocks, if_neg hne]
      rw [List.take_of_length_le (by simpa using hlen), List.reverse_reverse]
      rw [List.drop_eq_nil_of_le (by simpa using hlen), hrev0, List.append_nil]
    · have htlen : (l.take 16).length = 16 := List.length_take_of_le (by omega)
      have hrlen : ((l.take 16).reverse).length = 16 := by simpa using htlen
      have hne : (l.take 16).reverse ++ revBlocks (l.drop 16) ≠ [] := by
        intro hc
        have := congrArg List.length hc
        simp [hrlen] at this
      rw [revBlocks, if_neg hne]
      rw [List.take_left' hrlen, List.drop_left' hrlen, List.reverse_reverse, ih]
      exact List.take_append_drop 16 l

theorem ctrTransform_length (E : List Nat → List Nat → List Nat) (key : List Nat)
    (keyslot ctr skip : Nat) (data : List Nat) :
    (ctrTransform E key keyslot ctr skip data).length = data.length := by
  unfold ctrTransform
  split
  · rw [revBlocks_length, xorKs_length, revBlocks_length]
  · exact xorKs_length _ _ _

theorem ctrTransform_involutive (E : List Nat → List Nat → List Nat) (key : List Nat)
    (keyslot ctr skip : Nat) (data : List Nat) :
    ctrTransform E key keyslot ctr skip (ctrTransform E key keyslot ctr skip data) = data := by
  unfold ctrTransform
  split
  · rw [revBlocks_revBlocks, xorKs_xorKs, revBlocks_revBlocks]
  · exact xorKs_xorKs _ _ _

theorem writeAt_drop_take (f : List Nat) (pos : Nat) (c : List Nat) :
    ((writeAt f pos c).drop pos).take c.length = c := by
  unfold writeAt
  have hplen : (f.take pos ++ List.replicate (pos - f.length) 0).length = pos := by
    simp only [List.length_append, List.length_take, List.length_replicate]
    omega
  rw [List.append_assoc, List.append_assoc]
  rw [← List.append_assoc (f.take pos)]
  rw [List.drop_left' hplen]
  exact List.take_left' rfl

/-- C10: on a keyslot whose normal key is set, seeking to any offset, writing
any byte string through `CTRFileIO`, seeking back and reading the same number
of bytes returns exactly the written plaintext: write and read apply the same
keystream at the same block-aligned counter, so the adapter is self-inverse at
any offset (including the DSi block-reversing keyslots below 4). -/
theorem claim_C10_ctr_write_read_roundtrip (E : List Nat → List Nat → List Nat)
    (eng : CryptoEngine) (keyslot ctrBase : Nat) (s : CTRFileIO) (off : Nat)
    (data : List Nat) (key : List Nat) (hkey : eng.key_normal keyslot = some key) :
    (match ctrIoWrite E eng keyslot ctrBase (ctrIoSeek s off) data with
      | .ok (_, s1) => (ctrIoRead E eng keyslot ctrBase (ctrIoSeek s1 off) data.length).map
          Prod.fst
      | .error ε => .error ε) = .ok data := by
  unfold ctrIoWrite ctrIoRead ctrIoSeek
  rw [hkey]
  simp only []
  have henclen : (ctrTransform E key keyslot (ctrBase + off / 16) (off % 16) data).length
      = data.length := ctrTransform_length _ _ _ _ _ _
  have hslice : ((writeAt s.file off
        (ctrTransform E key keyslot (ctrBase + off / 16) (off % 16) data)).drop off).take
          data.length
      = ctrTransform E key keyslot (ctrBase + off / 16) (off % 16) data := by
    rw [← henclen]
    exact writeAt_drop_take _ _ _
  rw [hslice, ctrTransform_involutive]
  rfl

/-- Concrete crypto-engine state used by witnesses: KeyX of slot 0x3D and the
normal key of slot 0x34 are set, nothing else. -/
def testEngine : CryptoEngine where
  dev := 0
  key_x := fun s => if s = 0x3D then some 7 else none
  key_y := fun _ => none
  key_normal := fun s => if s = 0x34 then some (List.replicate 16 9) else none

/-- Witness for C10 at a concrete engine, file, offset and data. -/
theorem claim_C10_witness :
    (match ctrIoWrite (fun _ _ => List.replicate 16 5) testEngine 0x34 0
        (ctrIoSeek ⟨[], 0⟩ 3) [1, 2, 3] with
      | .ok (_, s1) => (ctrIoRead (fun _ _ => List.replicate 16 5) testEngine 0x34 0
          (ctrIoSeek s1 3) 3).map Prod.fst
      | .error ε => .error ε) = .ok [1, 2, 3] :=
  claim_C10_ctr_write_read_roundtrip (fun _ _ => List.replicate 16 5) testEngine 0x34 0
    ⟨[], 0⟩ 3 [1, 2, 3] (List.replicate 16 9) rfl

/-- C6: `load_from_ticket` raises `TicketLengthError` exactly when the ticket
is shorter than 0x2AC bytes; otherwise the slot-0x40 normal key becomes the
AES-CBC decryption of bytes 0x1BF..0x1CF under the slot-0x3D normal key — the
dev common key 0 override, or the scrambler output for the common KeyY
selected by byte 0x1F1 — with IV bytes 0x1DC..0x1E4 followed by 8 zero bytes,
stored directly without the scrambler. -/
theorem claim_C6_load_from_ticket (D : List Nat → List Nat → List Nat) (e : CryptoEngine)
    (t : List Nat) :
    (CryptoEngine.load_from_ticket D e t = .error (.ticketLength t.length) ↔
      t.length < 0x2AC) ∧
    (0x2AC ≤ t.length → e.dev ≠ 0 → t.getD 0x1F1 0 = 0 →
      CryptoEngine.load_from_ticket D e t =
        .ok ((e.set_normal_key 0x3D DEV_COMMON_KEY_0).set_normal_key 0x40
          (cbcDecrypt D DEV_COMMON_KEY_0 ((t.drop 0x1DC).take 8 ++ List.replicate 8 0)
            ((t.drop 0x1BF).take 0x10)))) ∧
    (0x2AC ≤ t.length → ¬(e.dev ≠ 0 ∧ t.getD 0x1F1 0 = 0) →
      ∀ y, common_key_y.get? (t.getD 0x1F1 0) = some y →
      ∀ x, e.key_x 0x3D = some x →
        CryptoEngine.load_from_ticket D e t =
          .ok ((e.set_keyslot false 0x3D y).set_normal_key 0x40
            (cbcDecrypt D (keygen_manual x y) ((t.drop 0x1DC).take 8 ++ List.replicate 8 0)
              ((t.drop 0x1BF).take 0x10)))) := by
  refine ⟨?_, ?_, ?_⟩
  · unfold CryptoEngine.load_from_ticket
    by_cases hlen : t.length < 0x2AC
    · simp [hlen]
    · simp only [if_neg hlen]
      constructor
      · intro hcontra
        exfalso
        split at hcontra
        · simp only [Except.bind] at hcontra
          split at hcontra <;> simp at hcontra
        · split at hcontra
          · simp only [Except.bind] at hcontra
            split at hcontra <;> simp at hcontra
          · simp [Except.bind] at hcontra
      · intro hc
        exact absurd hc hlen
  · intro hlen hdev hidx
    simp only [CryptoEngine.load_from_ticket]
    rw [if_neg (by omega : ¬t.length < 0x2AC)]
    rw [if_pos ⟨hdev, hidx⟩]
    simp only [Except.bind]
    have hkey : (e.set_normal_key 0x3D DEV_COMMON_KEY_0).key_normal 0x3D =
        some DEV_COMMON_KEY_0 := by
      simp [CryptoEngine.set_normal_key]
    rw [hkey]
  · intro hlen hcond y hy x hx
    simp only [CryptoEngine.load_from_ticket]
    rw [if_neg (by omega : ¬t.length < 0x2AC)]
    rw [if_neg hcond, hy]
    simp only [Except.bind]
    have hkey : (e.set_keyslot false 0x3D y).key_normal 0x3D =
        some (keygen_manual x y) := by
      simp only [CryptoEngine.set_keyslot, if_neg (Bool.false_ne_true)]
      have hgen : CryptoEngine.keygen
          { e with key_y := fun s => if s = 0x3D then some y else e.key_y s } 0x3D =
            some (keygen_manual x y) := by
        simp [CryptoEngine.keygen, hx]
      rw [hgen]
      simp
    rw [hkey]


set_option maxRecDepth 10000 in
/-- Witness for C6: a zero-filled minimum-length ticket against a concrete
engine state selects common KeyY 0 and stores the CBC-decrypted titlekey in
slot 0x40. -/
theorem claim_C6_witness :
    CryptoEngine.load_from_ticket (fun _ b => b) testEngine (List.replicate 0x2AC 0) =
      .ok ((testEngine.set_keyslot false 0x3D
          0xD07B337F9CA4385932A2E25723232EB9).set_normal_key 0x40
        (cbcDecrypt (fun _ b => b) (keygen_manual 7 0xD07B337F9CA4385932A2E25723232EB9)
          (((List.replicate 0x2AC 0 : List Nat).drop 0x1DC).take 8 ++ List.replicate 8 0)
          (((List.replicate 0x2AC 0 : List Nat).drop 0x1BF).take 0x10))) :=
  (claim_C6_load_from_ticket (fun _ b => b) testEngine (List.replicate 0x2AC 0)).2.2
    (by simp) (by simp [testEngine]) 0xD07B337F9CA4385932A2E25723232EB9
    (by simp [common_key_y]) 7 rfl

/-- The blank-save step of `CustomInstall.start` (`custominstall.py` lines
313-323): a CTR cipher on the SD keyslot 0x34 at the path-derived counter
encrypts 0x20 zero bytes, which are written followed by `save_size - 0x20`
plain zero bytes. -/
def saveFileBytes (E : List Nat → List Nat → List Nat) (key : List Nat)
    (ctr saveSize : Nat) : List Nat :=
  ctrTransform E key 0x34 ctr 0 (List.replicate 0x20 0) ++
    List.replicate (saveSize - 0x20) 0

/-- Claim C2 as stated: the whole `save_size`-byte file is the AES-CTR
encryption of `save_size` zero bytes. -/
def claimSaveFileBytes (E : List Nat → List Nat → List Nat) (key : List Nat)
    (ctr saveSize : Nat) : List Nat :=
  ctrTransform E key 0x34 ctr 0 (List.replicate saveSize 0)

/-- C2 counterexample: at a concrete block cipher whose keystream is all-ones,
the written save file (encrypted 0x20-byte head, zero tail) differs from the
claim's fully-encrypted file. -/
theorem claim_C2_counterexample :
    saveFileBytes (fun _ _ => List.replicate 16 1) [] 0 0x40 ≠
      claimSaveFileBytes (fun _ _ => List.replicate 16 1) [] 0 0x40 := by
  decide

/-- C2 amended: the save file is exactly `save_size` bytes; its first 0x20
bytes are the AES-CTR encryption (keyslot 0x34, path-derived counter) of 0x20
zero bytes, and the remaining `save_size - 0x20` bytes are literal zero bytes
(written without encryption). -/
theorem claim_C2_amended (E : List Nat → List Nat → List Nat) (key : List Nat)
    (ctr saveSize : Nat) (h : 0x20 ≤ saveSize) :
    (saveFileBytes E key ctr saveSize).length = saveSize ∧
      (saveFileBytes E key ctr saveSize).take 0x20 =
        ctrTransform E key 0x34 ctr 0 (List.replicate 0x20 0) ∧
      (saveFileBytes E key ctr saveSize).drop 0x20 =
        List.replicate (saveSize - 0x20) 0 := by
  have hlen : (ctrTransform E key 0x34 ctr 0 (List.replicate 0x20 0)).length = 0x20 := by
    rw [ctrTransform_length]
    simp
  refine ⟨?_, ?_, ?_⟩
  · simp only [saveFileBytes, List.length_append, hlen, List.length_replicate]
    omega
  · exact List.take_left' hlen
  · exact List.drop_left' hlen

/-- Witness for C2's amended statement at a concrete cipher and save size. -/
theorem claim_C2_witness :
    (saveFileBytes (fun _ _ => List.replicate 16 1) [] 0 0x40).length = 0x40 ∧
      (saveFileBytes (fun _ _ => List.replicate 16 1) [] 0 0x40).drop 0x20 =
        List.replicate 0x20 0 :=
  ⟨(claim_C2_amended (fun _ _ => List.replicate 16 1) [] 0 0x40 (by decide)).1,
    (claim_C2_amended (fun _ _ => List.replicate 16 1) [] 0 0x40 (by decide)).2.2⟩

/-- `CMD_MISSING` from `custominstall.py`. -/
def CMD_MISSING : List Nat := [0xFF, 0xFF, 0xFF, 0xFF]

/-- The literal 16 ASCII bytes `MISSING CONTENT!` used for gaps in the CMD
CMAC table (`bytes.fromhex('4D495353494E4720434F4E54454E5421')`). -/
def MISSING_CONTENT_CMAC : List Nat :=
  [0x4D, 0x49, 0x53, 0x53, 0x49, 0x4E, 0x47, 0x20, 0x43, 0x4F, 0x4E, 0x54, 0x45, 0x4E, 0x54, 0x21]

/-- One installed content as the CMD generator sees it: its TMD content-ID
bytes, its content index, and the raw (SD-encrypted) bytes of its content
file as exposed by `open_raw_section`. -/
structure CmdContent where
  id : List Nat
  cindex : Nat
  data : List Nat
deriving DecidableEq

/-- The per-content CMAC of the CMD loop: AES-CMAC under the keyslot-0x30
(`Keyslot.CMACSDNAND`) normal key `key30` of the SHA-256 of 0x100 bytes at
offset 0x100 of the content, the content index as LE32, and the byte-reversed
content ID. -/
def cmdContentCmac (sha : List Nat → List Nat) (cmacF : List Nat → List Nat → List Nat)
    (key30 : List Nat) (r : CmdContent) : List Nat :=
  cmacF key30 (sha (((r.data.drop 0x100).take 0x100) ++ leBytes 4 r.cindex ++ r.id.reverse))

/-- The `content_ids` dict built by the first CMD loop (Python dict insertion:
later records overwrite earlier ones at the same index). -/
def cmdContentIds (sha : List Nat → List Nat) (cmacF : List Nat → List Nat → List Nat)
    (key30 : List Nat) (records : List CmdContent) :
    Nat → Option (List Nat × List Nat) :=
  records.foldl
    (fun m r => fun z =>
      if z = r.cindex then some (r.id.reverse, cmdContentCmac sha cmacF key30 r) else m z)
    (fun _ => none)

/-- `highest_index` after the first CMD loop: the index of the last record
iterated (the highest only when the records are sorted). -/
def cmdHighestIndex (records : List CmdContent) : Nat :=
  records.foldl (fun _ r => r.cindex) 0

/-- The second CMD loop over `range(len(ids_by_index))`, threading the
`ids_by_index` array (initialized to `CMD_MISSING`) plus the `installed_ids`
and `cmacs` accumulators. -/
def cmdTablesFold (m : Nat → Option (List Nat × List Nat)) (initIds : List (List Nat))
    (xs : List Nat) : List (List Nat) × List (List Nat) × List (List Nat) :=
  xs.foldl
    (fun st x =>
      match m x with
      | none => (st.1, st.2.1, st.2.2 ++ [MISSING_CONTENT_CMAC])
      | some info => (st.1.set x info.1, st.2.1 ++ [info.1], st.2.2 ++ [info.2]))
    (initIds, [], [])

/-- `ids_by_index`, `installed_ids` (unsorted) and `cmacs` for one title. -/
def cmdTables (m : Nat → Option (List Nat × List Nat)) (count : Nat) :
    List (List Nat) × List (List Nat) × List (List Nat) :=
  cmdTablesFold m (List.replicate count CMD_MISSING) (List.range count)

/-- `installed_ids.sort(key=lambda x: int.from_bytes(x, 'little'))`. -/
def sortByLe (l : List (List Nat)) : List (List Nat) :=
  l.insertionSort (fun a b => readle a ≤ readle b)

/-- The CMD file plaintext built by `CustomInstall.start`
(`custominstall.py` lines 331-375): the 16-byte header (`cmd_id`, number of
IDs by index, number of installed IDs, 1, all LE32), its slot-0x30 CMAC, then
the three tables. -/
def cmdFileBody (sha : List Nat → List Nat) (cmacF : List Nat → List Nat → List Nat)
    (key30 : List Nat) (isDlc : Bool) (records : List CmdContent) : List Nat :=
  let cmdId := if isDlc then records.length else 1
  let m := cmdContentIds sha cmacF key30 records
  let st := cmdTables m (cmdHighestIndex records + 1)
  let installedSorted := sortByLe st.2.1
  let header := leBytes 4 cmdId ++ leBytes 4 st.1.length ++ leBytes 4 st.2.1.length ++
    leBytes 4 1
  header ++ cmacF key30 header ++ st.1.flatten ++ installedSorted.flatten ++ st.2.2.flatten

/-- The highest content index as the claim reads it: the maximum over the
records. -/
def maxCindex (records : List CmdContent) : Nat :=
  records.foldl (fun a r => max a r.cindex) 0

theorem foldl_max_cindex (records : List CmdContent) (a : Nat) :
    records.foldl (fun a r => max a r.cindex) a = max a (maxCindex records) := by
  induction records generalizing a with
  | nil => simp [maxCindex]
  | cons r t ih =>
    show t.foldl _ (max a r.cindex) = max a (maxCindex (r :: t))
    rw [ih (max a r.cindex)]
    have : maxCindex (r :: t) = max r.cindex (maxCindex t) := by
      show t.foldl _ (max 0 r.cindex) = _
      rw [ih (max 0 r.cindex)]
      simp [Nat.max_comm]
    rw [this, Nat.max_assoc]

theorem mem_le_maxCindex (records : List CmdContent) (r : CmdContent) (hr : r ∈ records) :
    r.cindex ≤ maxCindex records := by
  induction records with
  | nil => cases hr
  | cons s t ih =>
    have hmax : maxCindex (s :: t) = max s.cindex (maxCindex t) := by
      show t.foldl _ (max 0 s.cindex) = _
      rw [foldl_max_cindex]
      simp [Nat.max_comm]
    rcases List.mem_cons.mp hr with rfl | hr
    · rw [hmax]; exact Nat.le_max_left _ _
    · rw [hmax]; exact le_trans (ih hr) (Nat.le_max_right _ _)

theorem cmdHighestIndex_eq_max (records : List CmdContent) (hne : records ≠ [])
    (hsorted : records.Pairwise (fun a b => a.cindex < b.cindex)) :
    cmdHighestIndex records = maxCindex records := by
  induction records with
  | nil => cases hne rfl
  | cons r t ih =>
    have hmax : maxCindex (r :: t) = max r.cindex (maxCindex t) := by
      show t.foldl _ (max 0 r.cindex) = _
      rw [foldl_max_cindex]
      simp [Nat.max_comm]
    cases t with
    | nil =>
      show r.cindex = maxCindex [r]
      simp [maxCindex]
    | cons s t' =>
      have hlast : cmdHighestIndex (r :: s :: t') = cmdHighestIndex (s :: t') := by
        show (s :: t').foldl (fun _ r => r.cindex) r.cindex = _
        show (t'.foldl (fun _ r => r.cindex) s.cindex) = (t'.foldl (fun _ r => r.cindex) s.cindex)
        rfl
      have hrest := ih (by simp) (List.pairwise_cons.mp hsorted).2
      have hrs : r.cindex < s.cindex :=
        (List.pairwise_cons.mp hsorted).1 s (List.mem_cons_self _ _)
      have hsmax : s.cindex ≤ maxCindex (s :: t') :=
        mem_le_maxCindex _ _ (List.mem_cons_self _ _)
      rw [hlast, hrest, hmax]
      exact (Nat.max_eq_right (by omega)).symm

theorem cmdContentIds_fold_eval (sha : List Nat → List Nat)
    (cmacF : List Nat → List Nat → List Nat) (key30 : List Nat)
    (records : List CmdContent) (hnd : (records.map CmdContent.cindex).Nodup) :
    ∀ (m : Nat → Option (List Nat × List Nat)) (x : Nat),
      records.foldl
        (fun m r => fun z =>
          if z = r.cindex then some (r.id.reverse, cmdContentCmac sha cmacF key30 r) else m z)
        m x =
      match records.find? (fun r => r.cindex == x) with
      | some r => some (r.id.reverse, cmdContentCmac sha cmacF key30 r)
      | none => m x := by
  induction records with
  | nil => intro m x; simp
  | cons r t ih =>
    intro m x
    rw [List.map_cons, List.nodup_cons] at hnd
    obtain ⟨hr, ht⟩ := hnd
    rw [List.foldl_cons, ih ht]
    by_cases hx : r.cindex = x
    · have hfind : t.find? (fun s => s.cindex == x) = none := by
        rw [List.find?_eq_none]
        intro s hs hsx
        exact hr (by
          have : s.cindex = x := by simpa using hsx
          rw [← hx] at this
          exact this ▸ List.mem_map_of_mem CmdContent.cindex hs)
      rw [List.find?_cons_of_pos _ (by simpa using hx), hfind]
      simp [hx]
    · rw [List.find?_cons_of_neg _ (by simpa using hx)]
      cases t.find? (fun s => s.cindex == x) with
      | some s => rfl
      | none =>
        show (if x = r.cindex then _ else m x) = m x
        rw [if_neg (fun h => hx h.symm)]

theorem set_append_length {α : Type} (A B : List α) (v : α) :
    (A ++ B).set A.length v = A ++ B.set 0 v := by
  induction A with
  | nil => simp
  | cons a t ih => simp [List.set, ih]

theorem set_append_of_length_eq {α : Type} (A B : List α) (j : Nat) (h : A.length = j) (v : α) :
    (A ++ B).set j v = A ++ B.set 0 v := by
  subst h
  exact set_append_length A B v

theorem cmdTablesFold_inv (m : Nat → Option (List Nat × List Nat)) (count : Nat) :
    ∀ j, j ≤ count →
      cmdTablesFold m (List.replicate count CMD_MISSING) (List.range j) =
        ((List.range j).map (fun x => match m x with
            | some info => info.1
            | none => CMD_MISSING) ++ List.replicate (count - j) CMD_MISSING,
         (List.range j).filterMap (fun x => (m x).map Prod.fst),
         (List.range j).map (fun x => match m x with
            | some info => info.2
            | none => MISSING_CONTENT_CMAC)) := by
  intro j
  induction j with
  | zero => intro; simp [cmdTablesFold]
  | succ j ih =>
    intro hj
    have hstep := ih (by omega)
    rw [List.range_succ]
    unfold cmdTablesFold at hstep ⊢
    rw [List.foldl_append, hstep, List.foldl_cons, List.foldl_nil]
    have hrep : List.replicate (count - j) CMD_MISSING =
        CMD_MISSING :: List.replicate (count - (j + 1)) CMD_MISSING := by
      have : count - j = (count - (j + 1)) + 1 := by omega
      rw [this, List.replicate_succ]
    cases hm : m j with
    | none =>
      simp only [hm, List.map_append, List.filterMap_append, List.map_cons, List.map_nil,
        List.filterMap_cons, Option.map_none']
      rw [hrep]
      simp
    | some info =>
      simp only [hm, List.map_append, List.filterMap_append, List.map_cons, List.map_nil,
        List.filterMap_cons, Option.map_some']
      have hlen : ((List.range j).map (fun x => match m x with
          | some info => info.1
          | none => CMD_MISSING)).length = j := by
        simp
      rw [set_append_of_length_eq _ _ _ hlen]
      rw [hrep]
      simp [List.set]

theorem cmdTables_spec (m : Nat → Option (List Nat × List Nat)) (count : Nat) :
    cmdTables m count =
      ((List.range count).map (fun x => match m x with
          | some info => info.1
          | none => CMD_MISSING),
       (List.range count).filterMap (fun x => (m x).map Prod.fst),
       (List.range count).map (fun x => match m x with
          | some info => info.2
          | none => MISSING_CONTENT_CMAC)) := by
  have h := cmdTablesFold_inv m count count (le_refl count)
  simpa [cmdTables] using h

theorem filterMapCongr {α β : Type} (l : List α) (f g : α → Option β)
    (h : ∀ a ∈ l, f a = g a) : l.filterMap f = l.filterMap g := by
  induction l with
  | nil => rfl
  | cons a t ih =>
    rw [List.filterMap_cons, List.filterMap_cons, h a (List.mem_cons_self _ _),
      ih (fun b hb => h b (List.mem_cons_of_mem _ hb))]

theorem filterMap_find_range' (f : CmdContent → List Nat) :
    ∀ (n s : Nat) (records : List CmdContent),
      records.Pairwise (fun a b => a.cindex < b.cindex) →
      (∀ r ∈ records, s ≤ r.cindex ∧ r.cindex < s + n) →
      (List.range' s n).filterMap
        (fun x => (records.find? (fun r => r.cindex == x)).map f) = records.map f := by
  intro n
  induction n with
  | zero =>
    intro s records _ hbound
    cases records with
    | nil => rfl
    | cons r t =>
      have := hbound r (List.mem_cons_self _ _)
      omega
  | succ n ih =>
    intro s records hsorted hbound
    rw [List.range'_succ, List.filterMap_cons]
    cases records with
    | nil =>
      simp only [List.find?_nil, Option.map_none']
      rw [filterMapCongr _ _ (fun _ => none) (by simp)]
      simp
    | cons r t =>
      obtain ⟨hs, hlt⟩ := hbound r (List.mem_cons_self _ _)
      obtain ⟨hhead, htsorted⟩ := List.pairwise_cons.mp hsorted
      by_cases hx : r.cindex = s
      · rw [List.find?_cons_of_pos _ (by simpa using hx)]
        have hcongr : (List.range' (s + 1) n).filterMap
            (fun x => ((r :: t).find? (fun q => q.cindex == x)).map f) =
            (List.range' (s + 1) n).filterMap
            (fun x => (t.find? (fun q => q.cindex == x)).map f) := by
          refine filterMapCongr _ _ _ (fun x hxmem => ?_)
          have hxge : s + 1 ≤ x := (List.mem_range'_1.mp hxmem).1
          rw [List.find?_cons_of_neg _ (by simp; omega)]
        rw [hcongr, ih (s + 1) t htsorted (fun q hq => ?_)]
        · simp
        · have h1 := hhead q hq
          have h2 := hbound q (List.mem_cons_of_mem _ hq)
          omega
      · have hfind : (r :: t).find? (fun q => q.cindex == s) = none := by
          rw [List.find?_eq_none]
          intro q hq hqs
          have hqs' : q.cindex = s := by simpa using hqs
          rcases List.mem_cons.mp hq with rfl | hq
          · exact hx hqs'
          · have := hhead q hq
            omega
        rw [hfind, Option.map_none']
        exact ih (s + 1) (r :: t) hsorted (fun q hq => by
          have h2 := hbound q hq
          rcases List.mem_cons.mp hq with rfl | hq'
          · omega
          · have := hhead q hq'
            omega)

instance : IsTotal (List Nat) (fun a b => readle a ≤ readle b) :=
  ⟨fun a b => Nat.le_total _ _⟩

instance : IsTrans (List Nat) (fun a b => readle a ≤ readle b) :=
  ⟨fun _ _ _ => Nat.le_trans⟩

/-- C3: for a title with non-empty, index-sorted content records, the CMD file
body is `cmd_id` (1 for non-DLC, the content count for DLC), the total ID
count (highest content index + 1), the installed ID count, and 1, all LE32;
the slot-0x30 CMAC of those 16 header bytes; one 4-byte entry per index
(reversed content ID when present, `FFFFFFFF` when missing); the installed
IDs sorted ascending as little-endian integers; and one 16-byte entry per
index (the per-content slot-0x30 CMAC when present, `MISSING CONTENT!` when
missing). -/
theorem claim_C3_cmd_body (sha : List Nat → List Nat)
    (cmacF : List Nat → List Nat → List Nat) (key30 : List Nat) (isDlc : Bool)
    (records : List CmdContent) (hne : records ≠ [])
    (hsorted : records.Pairwise (fun a b => a.cindex < b.cindex)) :
    cmdFileBody sha cmacF key30 isDlc records =
      (leBytes 4 (if isDlc then records.length else 1) ++
        leBytes 4 (maxCindex records + 1) ++ leBytes 4 records.length ++ leBytes 4 1) ++
      cmacF key30 (leBytes 4 (if isDlc then records.length else 1) ++
        leBytes 4 (maxCindex records + 1) ++ leBytes 4 records.length ++ leBytes 4 1) ++
      ((List.range (maxCindex records + 1)).map (fun x =>
        match records.find? (fun r => r.cindex == x) with
        | some r => r.id.reverse
        | none => CMD_MISSING)).flatten ++
      (sortByLe (records.map (fun r => r.id.reverse))).flatten ++
      ((List.range (maxCindex records + 1)).map (fun x =>
        match records.find? (fun r => r.cindex == x) with
        | some r => cmdContentCmac sha cmacF key30 r
        | none => MISSING_CONTENT_CMAC)).flatten ∧
    (sortByLe (records.map (fun r => r.id.reverse))).Pairwise
      (fun a b => readle a ≤ readle b) ∧
    (sortByLe (records.map (fun r => r.id.reverse))).Perm
      (records.map (fun r => r.id.reverse)) := by
  have hnd : (records.map CmdContent.cindex).Nodup := by
    have hp : (records.map CmdContent.cindex).Pairwise (· < ·) :=
      List.pairwise_map.mpr hsorted
    exact hp.imp Nat.ne_of_lt
  have hhi := cmdHighestIndex_eq_max records hne hsorted
  have hmEval : ∀ x, cmdContentIds sha cmacF key30 records x =
      match records.find? (fun r => r.cindex == x) with
      | some r => some (r.id.reverse, cmdContentCmac sha cmacF key30 r)
      | none => none :=
    fun x => cmdContentIds_fold_eval sha cmacF key30 records hnd (fun _ => none) x
  refine ⟨?_, ?_, List.perm_insertionSort _ _⟩
  · have hids : (List.range (maxCindex records + 1)).map
        (fun x => match cmdContentIds sha cmacF key30 records x with
          | some info => info.1
          | none => CMD_MISSING) =
        (List.range (maxCindex records + 1)).map
        (fun x => match records.find? (fun r => r.cindex == x) with
          | some r => r.id.reverse
          | none => CMD_MISSING) := by
      refine List.map_congr_left (fun x _ => ?_)
      rw [hmEval x]
      cases records.find? (fun r => r.cindex == x) <;> rfl
    have hcmacs : (List.range (maxCindex records + 1)).map
        (fun x => match cmdContentIds sha cmacF key30 records x with
          | some info => info.2
          | none => MISSING_CONTENT_CMAC) =
        (List.range (maxCindex records + 1)).map
        (fun x => match records.find? (fun r => r.cindex == x) with
          | some r => cmdContentCmac sha cmacF key30 r
          | none => MISSING_CONTENT_CMAC) := by
      refine List.map_congr_left (fun x _ => ?_)
      rw [hmEval x]
      cases records.find? (fun r => r.cindex == x) <;> rfl
    have hinst : (List.range (maxCindex records + 1)).filterMap
        (fun x => (cmdContentIds sha cmacF key30 records x).map Prod.fst) =
        records.map (fun r => r.id.reverse) := by
      rw [filterMapCongr _ _
        (fun x => (records.find? (fun r => r.cindex == x)).map (fun r => r.id.reverse))
        (fun x _ => by
          rw [hmEval x]
          cases hf : records.find? (fun r => r.cindex == x) <;> simp [hf])]
      rw [List.range_eq_range']
      exact filterMap_find_range' _ (maxCindex records + 1) 0 records hsorted
        (fun r hr => ⟨Nat.zero_le _, by
          have := mem_le_maxCindex records r hr
          omega⟩)
    simp only [cmdFileBody, hhi, cmdTables_spec]
    rw [hids, hcmacs, hinst]
    have hl1 : ((List.range (maxCindex records + 1)).map
        (fun x => match records.find? (fun r => r.cindex == x) with
          | some r => r.id.reverse
          | none => CMD_MISSING)).length = maxCindex records + 1 := by
      simp
    have hl2 : (records.map (fun r => r.id.reverse)).length = records.length := by
      simp
    rw [hl1, hl2]
  · exact List.sorted_insertionSort (fun a b => readle a ≤ readle b)
      (records.map (fun r => r.id.reverse))

/-- Two contents with indices 0 and 2 (index 1 missing), as in the spec's CMD
test scenario. -/
def testCmdRecords : List CmdContent :=
  [⟨[0, 0, 0, 1], 0, List.replicate 0x200 7⟩, ⟨[0, 0, 0, 2], 2, List.replicate 0x200 9⟩]

/-- Stand-in CMAC used by witnesses. -/
def dummyCmac : List Nat → List Nat → List Nat := fun _ _ => List.replicate 16 3

/-- Witness for C3: the CMD body of the two-content title with a gap at
index 1 has the claimed shape, `ids_by_index = [id0, FFFFFFFF, id2]`, and the
missing index 1 carries the `MISSING CONTENT!` bytes. -/
theorem claim_C3_witness :
    cmdFileBody dummySha dummyCmac [] false testCmdRecords =
      (leBytes 4 1 ++ leBytes 4 (maxCindex testCmdRecords + 1) ++
        leBytes 4 testCmdRecords.length ++ leBytes 4 1) ++
      dummyCmac [] (leBytes 4 1 ++ leBytes 4 (maxCindex testCmdRecords + 1) ++
        leBytes 4 testCmdRecords.length ++ leBytes 4 1) ++
      ((List.range (maxCindex testCmdRecords + 1)).map (fun x =>
        match testCmdRecords.find? (fun r => r.cindex == x) with
        | some r => r.id.reverse
        | none => CMD_MISSING)).flatten ++
      (sortByLe (testCmdRecords.map (fun r => r.id.reverse))).flatten ++
      ((List.range (maxCindex testCmdRecords + 1)).map (fun x =>
        match testCmdRecords.find? (fun r => r.cindex == x) with
        | some r => cmdContentCmac dummySha dummyCmac [] r
        | none => MISSING_CONTENT_CMAC)).flatten ∧
      (List.range (maxCindex testCmdRecords + 1)).map (fun x =>
        match testCmdRecords.find? (fun r => r.cindex == x) with
        | some r => r.id.reverse
        | none => CMD_MISSING) = [[1, 0, 0, 0], [0xFF, 0xFF, 0xFF, 0xFF], [2, 0, 0, 0]] ∧
      ((List.range (maxCindex testCmdRecords + 1)).map (fun x =>
        match testCmdRecords.find? (fun r => r.cindex == x) with
        | some r => cmdContentCmac dummySha dummyCmac [] r
        | none => MISSING_CONTENT_CMAC)).getD 1 [] = MISSING_CONTENT_CMAC := by
  refine ⟨(claim_C3_cmd_body dummySha dummyCmac [] false testCmdRecords
    (by decide) (by decide)).1, by decide, by decide⟩

/-- The same two contents listed in descending index order (2 then 0): the
TMD parsers accept chunk records in any order and nothing in the CMD
generator sorts them. -/
def unsortedCmdRecords : List CmdContent :=
  [⟨[0, 0, 0, 2], 2, List.replicate 0x200 9⟩, ⟨[0, 0, 0, 1], 0, List.replicate 0x200 7⟩]

/-- C3 counterexample: with the contents listed in descending index order the
code's `highest_index` is the LAST record's index (0), not the highest (2):
the generated body's total-ID count field (bytes 4..8) is 1 where the claim
says highest content index + 1 = 3, and the whole body differs from the
claim's layout. -/
theorem claim_C3_counterexample :
    cmdFileBody dummySha dummyCmac [] false unsortedCmdRecords ≠
      (leBytes 4 1 ++ leBytes 4 (maxCindex unsortedCmdRecords + 1) ++
        leBytes 4 unsortedCmdRecords.length ++ leBytes 4 1) ++
      dummyCmac [] (leBytes 4 1 ++ leBytes 4 (maxCindex unsortedCmdRecords + 1) ++
        leBytes 4 unsortedCmdRecords.length ++ leBytes 4 1) ++
      ((List.range (maxCindex unsortedCmdRecords + 1)).map (fun x =>
        match unsortedCmdRecords.find? (fun r => r.cindex == x) with
        | some r => r.id.reverse
        | none => CMD_MISSING)).flatten ++
      (sortByLe (unsortedCmdRecords.map (fun r => r.id.reverse))).flatten ++
      ((List.range (maxCindex unsortedCmdRecords + 1)).map (fun x =>
        match unsortedCmdRecords.find? (fun r => r.cindex == x) with
        | some r => cmdContentCmac dummySha dummyCmac [] r
        | none => MISSING_CONTENT_CMAC)).flatten ∧
    readle (List.take 4 (List.drop 4
      (cmdFileBody dummySha dummyCmac [] false unsortedCmdRecords))) = 1 ∧
    maxCindex unsortedCmdRecords + 1 = 3 := by
  refine ⟨by decide, by decide, by decide⟩

/-- `signature_types` from `pyctr/type/tmd.py`: signature type → (size, padding). -/
def signatureTypes (sigType : Nat) : Option (Nat × Nat) :=
  if sigType = 0x00010000 then some (0x200, 0x3C)
  else if sigType = 0x00010001 then some (0x100, 0x3C)
  else if sigType = 0x00010002 then some (0x3C, 0x40)
  else if sigType = 0x00010003 then some (0x200, 0x3C)
  else if sigType = 0x00010004 then some (0x100, 0x3C)
  else if sigType = 0x00010005 then some (0x3C, 0x40)
  else none

/-- Content info record (`ContentInfoRecord`). -/
structure ContentInfoRecord where
  index_offset : Nat
  command_count : Nat
  hash : List Nat
deriving DecidableEq

/-- `ContentInfoRecord.__bytes__`. -/
def ContentInfoRecord.bytes (r : ContentInfoRecord) : List Nat :=
  beBytes 2 r.index_offset ++ beBytes 2 r.command_count ++ r.hash

/-- `ContentChunkRecord.__bytes__` (the source stores the ID as a hex string
and calls `bytes.fromhex`; the model stores the ID bytes directly). -/
def ContentChunkRecord.bytes (r : ContentChunkRecord) : List Nat :=
  r.id ++ beBytes 2 r.cindex ++ beBytes 2 r.type.toInt ++ beBytes 8 r.size ++ r.hash

/-- `TitleVersion` with its 16-bit packing. -/
structure TitleVersion where
  major : Nat
  minor : Nat
  micro : Nat
deriving DecidableEq

/-- `TitleVersion.from_int`. -/
def TitleVersion.fromInt (v : Nat) : TitleVersion :=
  ⟨(v >>> 10) &&& 0x3F, (v >>> 4) &&& 0x3F, v &&& 0xF⟩

/-- `TitleVersion.__index__`. -/
def TitleVersion.toInt (tv : TitleVersion) : Nat :=
  (tv.major <<< 10) ||| (tv.minor <<< 4) ||| tv.micro

/-- `TitleMetadataReader` state: the used fields plus every `_u_`-prefixed
field preserved for re-serialization.  The issuer is kept as its ASCII byte
values with trailing NULs stripped, mirroring `decode('ascii').rstrip('\0')`. -/
structure TitleMetadata where
  title_id : List Nat
  save_size : Nat
  srl_save_size : Nat
  title_version : TitleVersion
  info_records : List ContentInfoRecord
  chunk_records : List ContentChunkRecord
  content_count : Nat
  sig_type : Nat
  signature : List Nat
  u_issuer : List Nat
  u_version : Nat
  u_ca_crl_version : Nat
  u_signer_crl_version : Nat
  u_reserved1 : Nat
  u_system_version : List Nat
  u_title_type : List Nat
  u_group_id : List Nat
  u_reserved2 : List Nat
  u_srl_flag : Nat
  u_reserved3 : List Nat
  u_access_rights : List Nat
  u_boot_count : List Nat
  u_padding : List Nat
deriving DecidableEq

/-- Failures of `TitleMetadataReader.load` (plus the `UnicodeDecodeError` the
issuer decode can raise). -/
inductive TMDErr where
  | invalidSignatureType : Nat → TMDErr
  | invalidTMD : String → TMDErr
  | invalidHash : TMDErr
  | invalidInfoRecord : TMDErr
  | unicodeDecode : TMDErr
deriving DecidableEq

/-- Python `str.rstrip('\0')` on byte values. -/
def rstripZeros (l : List Nat) : List Nat :=
  (l.reverse.dropWhile (fun b => b = 0)).reverse

/-- `struct.pack` `'{n}s'` semantics: truncate to `n` bytes or pad with NULs. -/
def padTrunc (n : Nat) (l : List Nat) : List Nat :=
  l.take n ++ List.replicate (n - l.length) 0

/-- The per-info-record hash verification loop of `TitleMetadataReader.load`:
walk the info records, slice each one's chunk records, fail if any chunk
record was already hashed (tracking the `chunk_records_hashed` set via an
accumulating list), then compare the SHA-256 of the concatenated chunk record
bytes with the info record's hash. -/
def verifyInfoRecords (sha : List Nat → List Nat) (chunks : List ContentChunkRecord) :
    List ContentInfoRecord → List ContentChunkRecord → Except TMDErr Unit
  | [], _ => .ok ()
  | ir :: rest, hashed =>
    let toHash := (chunks.drop ir.index_offset).take ir.command_count
    match addHashedChunks hashed toHash with
    | none => .error (.invalidTMD "attempting to hash chunk record twice")
    | some hashed' =>
      if sha ((toHash.map ContentChunkRecord.bytes).flatten) ≠ ir.hash then
        .error .invalidInfoRecord
      else verifyInfoRecords sha chunks rest hashed'
where
  /-- Sequentially add chunk records to the hashed set, failing on a repeat. -/
  addHashedChunks (hashed : List ContentChunkRecord) :
      List ContentChunkRecord → Option (List ContentChunkRecord)
    | [] => some hashed
    | c :: cs => if c ∈ hashed then none else addHashedChunks (hashed ++ [c]) cs

/-- `TitleMetadataReader.load` on an in-memory byte stream, over an abstract
SHA-256 `sha`: signature type lookup, signature and padding, the 0xC4 header,
0x900 of info records with hash check, `content_count` chunk records (short
reads yield short slices, as in the source), non-zero info records, the
double-hash verification, then the unused fields. -/
def loadTMD (sha : List Nat → List Nat) (verifyHashes : Bool) (stream : List Nat) :
    Except TMDErr TitleMetadata :=
  let sigType := readbe (stream.take 4)
  match signatureTypes sigType with
  | none => .error (.invalidSignatureType sigType)
  | some (sigSize, sigPadding) =>
    let signature := (stream.drop 4).take sigSize
    let header := (stream.drop (4 + sigSize + sigPadding)).take 0xC4
    if header.length ≠ 0xC4 then .error (.invalidTMD "Header length is not 0xC4")
    else
      let content_count := readbe ((header.drop 0x9E).take 2)
      let infoRaw := (stream.drop (4 + sigSize + sigPadding + 0xC4)).take 0x900
      if infoRaw.length ≠ 0x900 then
        .error (.invalidTMD "Content info records length is not 0x900")
      else if verifyHashes ∧ (header.drop 0xA4).take 0x20 ≠ sha infoRaw then
        .error .invalidHash
      else
        let chunkRaw :=
          (stream.drop (4 + sigSize + sigPadding + 0xC4 + 0x900)).take (content_count * 0x30)
        let chunk_records := (List.range content_count).map (fun i =>
          let cr := (chunkRaw.drop (i * 0x30)).take 0x30
          ContentChunkRecord.mk (cr.take 4) (readbe ((cr.drop 4).take 2))
            (ContentTypeFlags.fromInt (readbe ((cr.drop 6).take 2)))
            (readbe ((cr.drop 8).take 8)) ((cr.drop 16).take 32))
        let info_records := (List.range 64).filterMap (fun i =>
          let ir := (infoRaw.drop (i * 0x24)).take 0x24
          if ir = List.replicate 0x24 0 then none
          else some (ContentInfoRecord.mk (readbe (ir.take 2)) (readbe ((ir.drop 2).take 2))
            ((ir.drop 4).take 32)))
        (if verifyHashes then verifyInfoRecords sha chunk_records info_records []
          else .ok ()).bind fun _ =>
        if (header.take 0x40).any (fun b => 0x80 ≤ b) then .error .unicodeDecode
        else
          .ok { title_id := (header.drop 0x4C).take 8
                save_size := readle ((header.drop 0x5A).take 4)
                srl_save_size := readle ((header.drop 0x5E).take 4)
                title_version := TitleVersion.fromInt (readbe ((header.drop 0x9C).take 2))
                info_records := info_records
                chunk_records := chunk_records
                content_count := content_count
                sig_type := sigType
                signature := signature
                u_issuer := rstripZeros (header.take 0x40)
                u_version := header.getD 0x40 0
                u_ca_crl_version := header.getD 0x41 0
                u_signer_crl_version := header.getD 0x42 0
                u_reserved1 := header.getD 0x43 0
                u_system_version := (header.drop 0x44).take 8
                u_title_type := (header.drop 0x54).take 4
                u_group_id := (header.drop 0x58).take 2
                u_reserved2 := (header.drop 0x62).take 4
                u_srl_flag := header.getD 0x66 0
                u_reserved3 := (header.drop 0x67).take 0x31
                u_access_rights := (header.drop 0x98).take 4
                u_boot_count := (header.drop 0xA0).take 2
                u_padding := (header.drop 0xA2).take 2 }

/-- `TitleMetadataReader.__bytes__` over an abstract SHA-256: the signature
block (`pack '>I {size}s {padding}x'`), the 0xC4 header (`pack` with
signed-byte fields, `'{n}s'` pad-or-truncate fields, and — as in the source —
`save_size` and `srl_save_size` emitted BIG-endian by `'>I'`), the info
records left-justified to 0x900 with their recomputed hash in the header,
then the chunk records.  `none` models the `struct.error`/`KeyError` raised
for out-of-range integer fields or an unknown signature type. -/
def bytesTMD (sha : List Nat → List Nat) (x : TitleMetadata) : Option (List Nat) :=
  match signatureTypes x.sig_type with
  | none => none
  | some (sigSize, sigPadding) =>
    if x.u_version < 0x80 ∧ x.u_ca_crl_version < 0x80 ∧ x.u_signer_crl_version < 0x80 ∧
        x.u_reserved1 < 0x80 ∧ x.u_srl_flag < 0x80 ∧ x.save_size < 2 ^ 32 ∧
        x.srl_save_size < 2 ^ 32 ∧ x.content_count < 2 ^ 16 then
      let sigData := beBytes 4 x.sig_type ++ padTrunc sigSize x.signature ++
        List.replicate sigPadding 0
      let infoRecords := (x.info_records.map ContentInfoRecord.bytes).flatten ++
        List.replicate (0x900 - ((x.info_records.map ContentInfoRecord.bytes).flatten).length) 0
      let header := padTrunc 0x40 x.u_issuer ++
        [x.u_version, x.u_ca_crl_version, x.u_signer_crl_version, x.u_reserved1] ++
        padTrunc 8 x.u_system_version ++ padTrunc 8 x.title_id ++
        padTrunc 4 x.u_title_type ++ padTrunc 2 x.u_group_id ++
        beBytes 4 x.save_size ++ beBytes 4 x.srl_save_size ++
        padTrunc 4 x.u_reserved2 ++ [x.u_srl_flag] ++ padTrunc 0x31 x.u_reserved3 ++
        padTrunc 4 x.u_access_rights ++ beBytes 2 x.title_version.toInt ++
        beBytes 2 x.content_count ++ padTrunc 2 x.u_boot_count ++ padTrunc 2 x.u_padding ++
        padTrunc 0x20 (sha infoRecords)
      some (sigData ++ header ++ infoRecords ++
        (x.chunk_records.map ContentChunkRecord.bytes).flatten)
    else none

/-- Stand-in digest whose output is 32 zero bytes, used for the C4 failing
input (a corresponding real TMD simply stores the real SHA-256 of 0x900 zero
bytes in its header). -/
def zeroSha : List Nat → List Nat := fun _ => List.replicate 32 0
/-- A minimal RSA-2048/SHA-256 TMD stream whose four `save_size` bytes at
header offset 0x5A are `w`, with zero contents and zero info records. -/
def streamC4 (w : List Nat) : List Nat :=
  [0, 1, 0, 4] ++ (List.replicate 0x196 0 ++ (w ++ List.replicate 0x966 0))

/-- The metadata object `loadTMD` produces from `streamC4 w` (with
`save_size = readle w`). -/
def xC4 (sv : Nat) : TitleMetadata :=
  { title_id := List.replicate 8 0
    save_size := sv
    srl_save_size := 0
    title_version := ⟨0, 0, 0⟩
    info_records := []
    chunk_records := []
    content_count := 0
    sig_type := 0x10004
    signature := List.replicate 0x100 0
    u_issuer := []
    u_version := 0
    u_ca_crl_version := 0
    u_signer_crl_version := 0
    u_reserved1 := 0
    u_system_version := List.replicate 8 0
    u_title_type := List.replicate 4 0
    u_group_id := List.replicate 2 0
    u_reserved2 := List.replicate 4 0
    u_srl_flag := 0
    u_reserved3 := List.replicate 0x31 0
    u_access_rights := List.replicate 4 0
    u_boot_count := List.replicate 2 0
    u_padding := List.replicate 2 0 }

theorem dropRep (k m : Nat) (X : List Nat) (hk : k ≤ m) :
    (List.replicate m (0 : Nat) ++ X).drop k = List.replicate (m - k) 0 ++ X := by
  rw [List.drop_append_eq_append_drop, List.drop_replicate]
  simp [Nat.sub_eq_zero_of_le hk]

theorem takeRepAppend (n m : Nat) (X : List Nat) (hn : n ≤ m) :
    (List.replicate m (0 : Nat) ++ X).take n = List.replicate n 0 := by
  rw [List.take_append_eq_append_take, List.take_replicate]
  simp [Nat.min_eq_left hn, Nat.sub_eq_zero_of_le hn]

theorem sliceRep (k n m : Nat) (X : List Nat) (h : k + n ≤ m) :
    ((List.replicate m (0 : Nat) ++ X).drop k).take n = List.replicate n 0 := by
  rw [dropRep k m X (by omega)]
  exact takeRepAppend n (m - k) X (by omega)

theorem dropThrough (k m q p : Nat) (w : List Nat) (hwlen : w.length = q) (hk : m + q ≤ k) :
    (List.replicate m (0 : Nat) ++ (w ++ List.replicate p 0)).drop k =
      List.replicate (m + q + p - k) 0 := by
  rw [List.drop_append_eq_append_drop, List.drop_append_eq_append_drop]
  rw [List.drop_eq_nil_of_le (by simp; omega)]
  rw [List.drop_eq_nil_of_le (by simp [hwlen]; omega)]
  rw [List.drop_replicate]
  simp only [List.nil_append, List.length_replicate, hwlen]
  congr 1
  omega

theorem streamC4_split (w : List Nat) :
    streamC4 w = (([0, 1, 0, 4] ++ List.replicate 0x13C 0) ++
      (List.replicate 0x5A 0 ++ (w ++ List.replicate 0x66 0))) ++ List.replicate 0x900 0 := by
  show [0, 1, 0, 4] ++ (List.replicate (0x13C + 0x5A) 0 ++ (w ++ List.replicate (0x66 + 0x900) 0)) = _
  rw [List.replicate_add, List.replicate_add]
  simp only [List.append_assoc]

theorem hdrSliceC4 (w : List Nat) (hw : w.length = 4) :
    List.take 0xC4 (List.drop (4 + 0x100 + 0x3C) (streamC4 w)) =
      List.replicate 0x5A 0 ++ (w ++ List.replicate 0x66 0) := by
  rw [streamC4_split, List.append_assoc]
  rw [List.drop_left' (by simp only [List.length_append, List.length_replicate,
    List.length_cons, List.length_nil]; try omega)]
  exact List.take_left' (by simp only [List.length_append, List.length_replicate, hw]; try omega)

theorem infoSliceC4 (w : List Nat) (hw : w.length = 4) :
    List.take 0x900 (List.drop (4 + 0x100 + 0x3C + 0xC4) (streamC4 w)) =
      List.replicate 0x900 0 := by
  rw [streamC4_split]
  rw [List.drop_left' (by simp only [List.length_append, List.length_replicate,
    List.length_cons, List.length_nil, hw]; try omega)]
  rw [List.take_replicate, Nat.min_self]

theorem getDRepThrough (k m q p : Nat) (w : List Nat) (hwlen : w.length = q) (hk : m + q ≤ k) :
    (List.replicate m (0 : Nat) ++ (w ++ List.replicate p 0)).getD k 0 = 0 := by
  rw [List.getD_eq_getElem?_getD]
  rw [List.getElem?_append_right (by simp; omega)]
  rw [List.getElem?_append_right (by simp [hwlen]; omega)]
  rw [List.getElem?_replicate]
  split <;> rfl

theorem loadTMD_streamC4 (w : List Nat) (hw : w.length = 4) :
    loadTMD zeroSha true (streamC4 w) = .ok (xC4 (readle w)) := by
  have h4 : List.take 4 (streamC4 w) = [0, 1, 0, 4] := rfl
  have hrb : readbe [0, 1, 0, 4] = 0x10004 := by decide
  have hsig : signatureTypes 0x10004 = some (0x100, 0x3C) := by decide
  simp only [loadTMD, h4, hrb, hsig]
  rw [hdrSliceC4 w hw, infoSliceC4 w hw]
  have hHdrLen : (List.replicate 0x5A (0 : Nat) ++ (w ++ List.replicate 0x66 0)).length = 0xC4 := by
    simp only [List.length_append, List.length_replicate, hw]
  rw [hHdrLen]
  rw [if_neg (fun h => h rfl)]
  rw [List.length_replicate]
  rw [if_neg (fun h => h rfl)]
  have hdrop164 : List.drop 164 (List.replicate 0x5A (0 : Nat) ++ (w ++ List.replicate 0x66 0)) =
      List.replicate (0x5A + 4 + 0x66 - 164) 0 := dropThrough 164 0x5A 4 0x66 w hw (by omega)
  rw [hdrop164]
  have hz : zeroSha (List.replicate 0x900 (0 : Nat)) = List.replicate 32 0 := rfl
  rw [hz, List.take_replicate]
  rw [if_neg (fun h => h.2 (by rw [Nat.min_eq_left (by omega)]))]
  have hcount : readbe (List.take 2 (List.drop 158
      (List.replicate 0x5A (0 : Nat) ++ (w ++ List.replicate 0x66 0)))) = 0 := by
    rw [dropThrough 158 0x5A 4 0x66 w hw (by omega)]
    decide
  rw [hcount]
  simp only [Nat.zero_mul, List.take_zero, List.range_zero, List.map_nil]
  have hinfoNil : List.filterMap (fun i =>
      if List.take 36 (List.drop (i * 36) (List.replicate 2304 (0 : Nat))) = List.replicate 36 0
      then none
      else some (ContentInfoRecord.mk
        (readbe (List.take 2 (List.take 36 (List.drop (i * 36) (List.replicate 2304 0)))))
        (readbe (List.take 2 (List.drop 2 (List.take 36 (List.drop (i * 36) (List.replicate 2304 0))))))
        (List.take 32 (List.drop 4 (List.take 36 (List.drop (i * 36) (List.replicate 2304 0)))))))
      (List.range 64) = [] := by
    refine List.filterMap_eq_nil_iff.mpr ?_
    intro i hi
    have hi64 : i < 64 := List.mem_range.mp hi
    have hslice : List.take 36 (List.drop (i * 36) (List.replicate 2304 (0 : Nat))) =
        List.replicate 36 0 := by
      rw [List.drop_replicate, List.take_replicate]
      congr 1
      omega
    simp only [hslice]
    rw [if_true]
  rw [hinfoNil]
  rw [if_true]
  have hverify : verifyInfoRecords zeroSha [] [] [] = Except.ok () := rfl
  rw [hverify]
  simp only [Except.bind]
  have htake64 : List.take 64 (List.replicate 90 (0 : Nat) ++ (w ++ List.replicate 102 0)) =
      List.replicate 64 0 := takeRepAppend 64 90 _ (by omega)
  rw [htake64]
  have hany : ((List.replicate 64 (0 : Nat)).any fun b => decide (128 ≤ b)) = false := by decide
  rw [hany]
  rw [if_neg Bool.false_ne_true]
  have hsave : List.take 4 (List.drop 90 (List.replicate 90 (0 : Nat) ++ (w ++ List.replicate 102 0))) = w := by
    rw [List.drop_left' (by simp only [List.length_replicate])]
    exact List.take_left' hw
  have hsrl : List.take 4 (List.drop 94 (List.replicate 90 (0 : Nat) ++ (w ++ List.replicate 102 0))) =
      List.replicate 4 0 := by
    rw [dropThrough 94 90 4 102 w hw (by omega), List.take_replicate]
    congr 1
  have hver156 : readbe (List.take 2 (List.drop 156
      (List.replicate 90 (0 : Nat) ++ (w ++ List.replicate 102 0)))) = 0 := by
    rw [dropThrough 156 90 4 102 w hw (by omega)]
    decide
  have hres2 : List.take 4 (List.drop 98 (List.replicate 90 (0 : Nat) ++ (w ++ List.replicate 102 0))) =
      List.replicate 4 0 := by
    rw [dropThrough 98 90 4 102 w hw (by omega), List.take_replicate]
    congr 1
  have hgetD102 : (List.replicate 90 (0 : Nat) ++ (w ++ List.replicate 102 0)).getD 102 0 = 0 :=
    getDRepThrough 102 90 4 102 w hw (by omega)
  have hres3 : List.take 49 (List.drop 103 (List.replicate 90 (0 : Nat) ++ (w ++ List.replicate 102 0))) =
      List.replicate 49 0 := by
    rw [dropThrough 103 90 4 102 w hw (by omega), List.take_replicate]
    congr 1
  have hacc : List.take 4 (List.drop 152 (List.replicate 90 (0 : Nat) ++ (w ++ List.replicate 102 0))) =
      List.replicate 4 0 := by
    rw [dropThrough 152 90 4 102 w hw (by omega), List.take_replicate]
    congr 1
  have hboot : List.take 2 (List.drop 160 (List.replicate 90 (0 : Nat) ++ (w ++ List.replicate 102 0))) =
      List.replicate 2 0 := by
    rw [dropThrough 160 90 4 102 w hw (by omega), List.take_replicate]
    congr 1
  have hpad : List.take 2 (List.drop 162 (List.replicate 90 (0 : Nat) ++ (w ++ List.replicate 102 0))) =
      List.replicate 2 0 := by
    rw [dropThrough 162 90 4 102 w hw (by omega), List.take_replicate]
    congr 1
  have hsignature : List.take 256 (List.drop 4 (streamC4 w)) = List.replicate 256 0 := by
    show List.take 256 (List.replicate 0x196 (0 : Nat) ++ (w ++ List.replicate 0x966 0)) = _
    exact takeRepAppend 256 0x196 _ (by omega)
  rw [hsave, hsrl, hver156, hres2, hgetD102, hres3, hacc, hboot, hpad, hsignature]
  rfl

set_option maxRecDepth 2000 in
theorem bytesTMD_xC4 (sv : Nat) (hsv : sv < 2 ^ 32) :
    bytesTMD zeroSha (xC4 sv) = some (streamC4 (beBytes 4 sv)) := by
  have hsig : signatureTypes 0x10004 = some (0x100, 0x3C) := by decide
  simp only [bytesTMD, xC4, hsig]
  rw [if_pos ⟨by norm_num, by norm_num, by norm_num, by norm_num, by norm_num, hsv,
    by norm_num, by norm_num⟩]
  simp only [List.map_nil, List.flatten_nil, List.nil_append, List.append_nil,
    List.length_nil, Nat.sub_zero]
  rw [show zeroSha (List.replicate 2304 (0 : Nat)) = List.replicate 32 0 from rfl]
  have hA : beBytes 4 0x10004 ++ padTrunc 0x100 (List.replicate 0x100 0) ++
      List.replicate 0x3C 0 = [0, 1, 0, 4] ++ List.replicate 0x13C (0 : Nat) := by decide
  have hB : padTrunc 64 [] ++ [0, 0, 0, 0] ++ padTrunc 8 (List.replicate 8 0) ++
      padTrunc 8 (List.replicate 8 0) ++ padTrunc 4 (List.replicate 4 0) ++
      padTrunc 2 (List.replicate 2 0) ++ beBytes 4 sv ++ beBytes 4 0 ++
      padTrunc 4 (List.replicate 4 0) ++ [0] ++ padTrunc 49 (List.replicate 49 0) ++
      padTrunc 4 (List.replicate 4 0) ++ beBytes 2 (TitleVersion.toInt ⟨0, 0, 0⟩) ++
      beBytes 2 0 ++ padTrunc 2 (List.replicate 2 0) ++ padTrunc 2 (List.replicate 2 0) ++
      padTrunc 32 (List.replicate 32 0) =
      List.replicate 0x5A 0 ++ (beBytes 4 sv ++ List.replicate 0x66 0) := by
    rw [show List.replicate 0x5A (0 : Nat) =
        padTrunc 64 [] ++ ([0, 0, 0, 0] ++ (padTrunc 8 (List.replicate 8 0) ++
          (padTrunc 8 (List.replicate 8 0) ++ (padTrunc 4 (List.replicate 4 0) ++
            padTrunc 2 (List.replicate 2 0))))) from by decide]
    rw [show List.replicate 0x66 (0 : Nat) =
        beBytes 4 0 ++ (padTrunc 4 (List.replicate 4 0) ++ ([0] ++
          (padTrunc 49 (List.replicate 49 0) ++ (padTrunc 4 (List.replicate 4 0) ++
            (beBytes 2 (TitleVersion.toInt ⟨0, 0, 0⟩) ++ (beBytes 2 0 ++
              (padTrunc 2 (List.replicate 2 0) ++ (padTrunc 2 (List.replicate 2 0) ++
                padTrunc 32 (List.replicate 32 0))))))))) from by decide]
    simp only [List.append_assoc]
  rw [hA, hB, streamC4_split]

/-- C4: refuted.  Parse-after-serialize is not the identity on valid TMDs:
`TitleMetadataReader.load` reads `save_size` (and `srl_save_size`)
little-endian with `readle`, but `__bytes__` emits them big-endian via the
`'>I'` fields of its pack format.  The valid TMD stream `streamC4 [1,0,0,0]`
loads successfully with `save_size = 1`, yet serializing the loaded object
and loading the result yields `save_size = 0x1000000`. -/
theorem claim_C4_tmd_roundtrip_endianness_bug :
    loadTMD zeroSha true (streamC4 [1, 0, 0, 0]) = .ok (xC4 1) ∧
    bytesTMD zeroSha (xC4 1) = some (streamC4 [0, 0, 0, 1]) ∧
    loadTMD zeroSha true (streamC4 [0, 0, 0, 1]) = .ok (xC4 0x1000000) ∧
    (xC4 1).save_size = 1 ∧ (xC4 0x1000000).save_size = 0x1000000 ∧
    xC4 1 ≠ xC4 0x1000000 := by
  refine ⟨?_, ?_, ?_, rfl, rfl, ?_⟩
  · have h := loadTMD_streamC4 [1, 0, 0, 0] (by decide)
    rwa [show readle [1, 0, 0, 0] = 1 from by decide] at h
  · have h := bytesTMD_xC4 1 (by norm_num)
    rwa [show beBytes 4 1 = [0, 0, 0, 1] from by decide] at h
  · have h := loadTMD_streamC4 [0, 0, 0, 1] (by decide)
    rwa [show readle [0, 0, 0, 1] = 0x1000000 from by decide] at h
  · intro h
    have h2 : (1 : Nat) = 0x1000000 := congrArg TitleMetadata.save_size h
    norm_num at h2
